import Mathlib

/-!
Verification development for the relay transport and encrypted local store of
the SignalProtocolSysMaintAgent repository.

The definitions below are shallow embeddings of the TypeScript sources:
* `Relay.*`    — packages/relay-server/src/index.ts (SQLite-backed queue,
                 registration/prekey tables, WebSocket connection table).
* External effects (WebSocket sends, `Date.now()`, `randomUUID`) are passed in
  as explicit parameters; SQLite statements become pure list operations.
-/

namespace Relay

/-- A row of the `messages` table:
`(id TEXT PRIMARY KEY, to_id, from_id, envelope_json, created_at, delivered)`.
Message ids (`randomUUID()` in the source) are modelled as naturals. -/
structure MessageRow where
  id : Nat
  toId : String
  fromId : String
  envelopeJson : String
  createdAt : Nat
  delivered : Bool
deriving DecidableEq, Repr

/-- The relay's SQLite database: `users`, `prekeys` and `messages` tables.
`prekeys` keeps the latest `bundle_json` per identity (`INSERT OR REPLACE`);
`messages` is the append-only queue log. -/
structure RelayDb where
  users : List String
  prekeys : List (String × String)
  messages : List MessageRow
deriving DecidableEq, Repr

/-- `stmtUserExists`: `SELECT 1 FROM users WHERE id = ?`. -/
def userExists (db : RelayDb) (id : String) : Bool :=
  db.users.contains id

/-- `stmtUserInsert`: `INSERT OR IGNORE INTO users (id, created_at) VALUES (?, ?)`. -/
def registerUser (db : RelayDb) (id : String) : RelayDb :=
  if db.users.contains id then db else { db with users := db.users ++ [id] }

/-- `stmtPrekeyUpsert`: `INSERT OR REPLACE INTO prekeys (id, bundle_json, updated_at)`. -/
def prekeyUpsert (db : RelayDb) (id : String) (bundleJson : String) : RelayDb :=
  { db with prekeys := (id, bundleJson) :: db.prekeys.filter (fun p => p.1 ≠ id) }

/-- `stmtPrekeyGet`: `SELECT bundle_json FROM prekeys WHERE id = ?`. -/
def prekeyGet (db : RelayDb) (id : String) : Option String :=
  db.prekeys.lookup id

/-- `stmtMsgInsert`: appends a fresh queue entry with `delivered = 0`. -/
def msgInsert (db : RelayDb) (row : MessageRow) : RelayDb :=
  { db with messages := db.messages ++ [row] }

/-- `stmtMsgMarkDelivered`: `UPDATE messages SET delivered = 1 WHERE id = ?`. -/
def msgMarkDelivered (db : RelayDb) (mid : Nat) : RelayDb :=
  { db with
    messages := db.messages.map fun r =>
      if r.id = mid then { r with delivered := true } else r }

/-- Stable insertion used to model SQLite's `ORDER BY created_at ASC`:
`r` is placed after every already-placed row whose `created_at` is `≤ r`'s. -/
def insertByCreatedAt (r : MessageRow) : List MessageRow → List MessageRow
  | [] => [r]
  | x :: xs =>
    if x.createdAt ≤ r.createdAt then x :: insertByCreatedAt r xs
    else r :: x :: xs

/-- Stable sort by `created_at` (rows are inserted left to right). -/
def orderByCreatedAt (l : List MessageRow) : List MessageRow :=
  l.foldl (fun acc r => insertByCreatedAt r acc) []

/-- `stmtMsgPending`: `SELECT … FROM messages WHERE to_id = ? AND delivered = 0
ORDER BY created_at ASC`. -/
def msgPending (db : RelayDb) (toId : String) : List MessageRow :=
  orderByCreatedAt (db.messages.filter fun r => r.toId = toId ∧ r.delivered = false)

/-- `deliverPending`'s replay loop over the pending rows: push each row on the
socket `ws`; on success mark it delivered and continue, on the first failed
push stop (the `catch { break }`).  `pushOk ws r` models whether
`sendWsMessage(ws, payload(r))` resolves.  Returns the updated database and
the rows pushed to the socket, in push order. -/
def replayRows (pushOk : Nat → MessageRow → Bool) (ws : Nat) (db : RelayDb) :
    List MessageRow → RelayDb × List MessageRow
  | [] => (db, [])
  | r :: rest =>
    if pushOk ws r then
      let step := replayRows pushOk ws (msgMarkDelivered db r.id) rest
      (step.1, r :: step.2)
    else (db, [])

/-- `deliverPending(toId, ws)`: replay all undelivered rows for `toId` in
`created_at` order. -/
def deliverPending (pushOk : Nat → MessageRow → Bool) (ws : Nat) (db : RelayDb)
    (toId : String) : RelayDb × List MessageRow :=
  replayRows pushOk ws db (msgPending db toId)

/-- The cumulative database effect of the replay loop: mark each pushed
row delivered, left to right. -/
def markList (db : RelayDb) (rows : List MessageRow) : RelayDb :=
  rows.foldl (fun d r => msgMarkDelivered d r.id) db

/-- The relay's in-memory state: the database plus the
`connections : Map<string, WebSocket>` table (sockets as naturals). -/
structure RelayServer where
  db : RelayDb
  connections : List (String × Nat)
deriving DecidableEq, Repr

/-- `deliverIfConnected(row)`: if the recipient holds an open connection, try
one immediate push; on success mark delivered and report `true`.
`wsOpen ws` models `ws.readyState === ws.OPEN`. -/
def deliverIfConnected (wsOpen : Nat → Bool) (pushOk : Nat → MessageRow → Bool)
    (srv : RelayServer) (row : MessageRow) : RelayServer × Bool :=
  match srv.connections.lookup row.toId with
  | none => (srv, false)
  | some ws =>
    if wsOpen ws = false then (srv, false)
    else if pushOk ws row then
      ({ srv with db := msgMarkDelivered srv.db row.id }, true)
    else (srv, false)

/-- Result of `POST /v1/messages`. -/
inductive SubmitResult where
  /-- 404 `{"error": "Recipient not registered."}` -/
  | notRegistered
  /-- 200 `{ok: true, queued, delivered}` -/
  | accepted (queued : Bool) (delivered : Bool)
deriving DecidableEq, Repr

/-- The `POST /v1/messages` handler: recipient must be registered, then a
queue entry is inserted with `delivered = 0` and one immediate delivery is
attempted.  `msgId` stands for the fresh `randomUUID()`, `now` for
`Date.now()`. -/
def submit (wsOpen : Nat → Bool) (pushOk : Nat → MessageRow → Bool)
    (srv : RelayServer) (fromId toId envelopeJson : String) (msgId now : Nat) :
    RelayServer × SubmitResult :=
  if userExists srv.db toId = false then (srv, .notRegistered)
  else
    let row : MessageRow :=
      { id := msgId, toId := toId, fromId := fromId,
        envelopeJson := envelopeJson, createdAt := now, delivered := false }
    let srv1 := { srv with db := msgInsert srv.db row }
    let res := deliverIfConnected wsOpen pushOk srv1 row
    (res.1, .accepted true res.2)

/-- Result of `POST /v1/prekeys`. -/
inductive PublishResult where
  /-- 404 `{"error": "User not registered."}` -/
  | notRegistered
  /-- 200 `{ok: true}` -/
  | ok
deriving DecidableEq, Repr

/-- The `POST /v1/prekeys` handler. -/
def publishBundle (db : RelayDb) (id : String) (bundleJson : String) :
    RelayDb × PublishResult :=
  if userExists db id = false then (db, .notRegistered)
  else (prekeyUpsert db id bundleJson, .ok)

/-- Result of `GET /v1/prekeys/:id`. -/
inductive FetchResult where
  /-- 404 `{"error": "Prekeys not found."}` -/
  | notFound
  /-- 200 `{id, bundle}` -/
  | found (id : String) (bundleJson : String)
deriving DecidableEq, Repr

/-- The `GET /v1/prekeys/:id` handler. -/
def fetchBundle (db : RelayDb) (id : String) : FetchResult :=
  match prekeyGet db id with
  | none => .notFound
  | some b => .found id b

/-! ### Connection lifecycle (`wss.on("connection")`, close/error handlers) -/

/-- The connection table together with the log of forcibly closed sockets
(`ws.close(code, reason)` calls), in the order they were issued. -/
structure ConnTable where
  conns : List (String × Nat)
  closedLog : List (Nat × Nat × String)
deriving DecidableEq, Repr

/-- `connections.set(clientId, ws)` on a JS `Map`. -/
def setConn (conns : List (String × Nat)) (id : String) (ws : Nat) :
    List (String × Nat) :=
  (id, ws) :: conns.filter (fun p => p.1 ≠ id)

/-- First half of the `connection` handler: if another socket already holds
`clientId`, close it with code 4000 and reason `"superseded"`. -/
def closeExisting (t : ConnTable) (id : String) (ws : Nat) : ConnTable :=
  match t.conns.lookup id with
  | some ex =>
    if ex ≠ ws then { t with closedLog := t.closedLog ++ [(ex, 4000, "superseded")] }
    else t
  | none => t

/-- Second half of the `connection` handler: `connections.set(clientId, ws)`. -/
def bindConn (t : ConnTable) (id : String) (ws : Nat) : ConnTable :=
  { t with conns := setConn t.conns id ws }

/-- The full `connection` handler (supersede then bind). -/
def onConnection (t : ConnTable) (id : String) (ws : Nat) : ConnTable :=
  bindConn (closeExisting t id ws) id ws

/-- The observable instants inside the `connection` handler, in program
order: before, after the supersession close, after the map update. -/
def onConnectionTrace (t : ConnTable) (id : String) (ws : Nat) : List ConnTable :=
  [t, closeExisting t id ws, onConnection t id ws]

/-- The socket `close`/`error` handlers:
`if (connections.get(clientId) === ws) connections.delete(clientId)`. -/
def onSocketGone (t : ConnTable) (id : String) (ws : Nat) : ConnTable :=
  if t.conns.lookup id = some ws then
    { t with conns := t.conns.filter (fun p => p.1 ≠ id) }
  else t

/-- Connection-lifecycle events observed by the relay. -/
inductive ConnEvent where
  | connect (id : String) (ws : Nat)
  | socketClosed (id : String) (ws : Nat)
  | socketError (id : String) (ws : Nat)
deriving DecidableEq, Repr

/-- One event step of the connection table. -/
def connStep (t : ConnTable) : ConnEvent → ConnTable
  | .connect id ws => onConnection t id ws
  | .socketClosed id ws => onSocketGone t id ws
  | .socketError id ws => onSocketGone t id ws

/-- Run the relay's connection lifecycle from startup (empty table). -/
def runConn (evs : List ConnEvent) : ConnTable :=
  evs.foldl connStep ⟨[], []⟩

/-- Number of live connections the relay holds for identity `id`. -/
def liveCount (t : ConnTable) (id : String) : Nat :=
  (t.conns.filter (fun p => p.1 = id)).length

end Relay

/-!
`Decimal.*` — helpers relating Lean's `Nat.repr` (the model of the JS
template interpolation `${id}` used to build store keys) to a structural
digit list, so that key distinctness can be proved.
-/

namespace Decimal

/-- The decimal digit list of `n`, most significant first. -/
def digitsRec (n : Nat) : List Char :=
  if _h : n < 10 then [Nat.digitChar n]
  else digitsRec (n / 10) ++ [Nat.digitChar (n % 10)]
decreasing_by
  exact Nat.div_lt_self (by omega) (by omega)

/-- Numeric value of a decimal digit character. -/
def charVal (c : Char) : Nat := c.toNat - 48

/-- Read a digit list back as a number (left inverse of `digitsRec`). -/
def unrepr (l : List Char) : Nat :=
  l.foldl (fun acc c => 10 * acc + charVal c) 0

end Decimal

/-!
`Core.*` — packages/signal-core/src/index.ts and store.ts.  The
`EncryptedStore` seen through the adapters is modelled as an association
list from the exact string keys used in the source to structured values
(record serialization by the external library is treated as the identity on
these structured records).  Private keys, public keys, serialized blobs and
signatures produced by `@signalapp/libsignal-client` are opaque tokens
(naturals); the operations consumed from that library are parameters.
-/

namespace Core

def COUNTER_PREKEY : String := "counter:prekey"

def COUNTER_SIGNED_PREKEY : String := "counter:signedprekey"

def COUNTER_KYBER_PREKEY : String := "counter:kyberprekey"

/-- `local:identityKeyPair`, the key used by `loadIdentityKeyPair`. -/
def IDENTITY_PAIR_KEY : String := "local:identityKeyPair"

/-- `` `prekey:${id}` `` -/
def preKeyKey (id : Nat) : String := "prekey:" ++ Nat.repr id

/-- `"prekey:used:" + id` (written by `removePreKey`). -/
def preKeyUsedKey (id : Nat) : String := "prekey:used:" ++ Nat.repr id

/-- `` `signedprekey:${id}` `` -/
def signedPreKeyKey (id : Nat) : String := "signedprekey:" ++ Nat.repr id

/-- `` `kyberprekey:${id}` `` -/
def kyberPreKeyKey (id : Nat) : String := "kyberprekey:" ++ Nat.repr id

/-- `` `kyberprekey:used:${id}` `` -/
def kyberPreKeyUsedKey (id : Nat) : String := "kyberprekey:used:" ++ Nat.repr id

/-- `PreKeyRecord.new(id, publicKey, privateKey)`. -/
structure PreKeyRec where
  keyId : Nat
  pubKey : Nat
  privKey : Nat
deriving DecidableEq, Repr

/-- `SignedPreKeyRecord.new(id, timestamp, publicKey, privateKey, signature)`. -/
structure SignedPreKeyRec where
  keyId : Nat
  timestamp : Nat
  pubKey : Nat
  privKey : Nat
  signature : Nat
deriving DecidableEq, Repr

/-- `KyberPreKeyRecord.new(id, timestamp, kemKeyPair, signature)`. -/
structure KyberPreKeyRec where
  keyId : Nat
  timestamp : Nat
  kemPair : Nat
  signature : Nat
deriving DecidableEq, Repr

/-- The structured values the signal-core code stores in the encrypted kv
table (counters, serialized records, used markers, the identity pair,
sessions and peer identities). -/
inductive StoreVal where
  | num (n : Nat)
  | preKeyRec (r : PreKeyRec)
  | signedPreKeyRec (r : SignedPreKeyRec)
  | kyberPreKeyRec (r : KyberPreKeyRec)
  | usedMark (usedAt : Nat)
  | kyberUsedMark (signedPreKeyId : Nat) (baseKey : Nat) (usedAt : Nat)
  | idPair (privKey pubKey : Nat)
  | sessionRec (tok : Nat)
  | identityPub (tok : Nat)
deriving DecidableEq, Repr

/-- `EncryptedStore.get` at the kv level (`SELECT value FROM kv WHERE key = ?`). -/
def kvGet (kv : List (String × StoreVal)) (k : String) : Option StoreVal :=
  kv.lookup k

/-- `EncryptedStore.set` (`INSERT OR REPLACE INTO kv`). -/
def kvSet (kv : List (String × StoreVal)) (k : String) (v : StoreVal) :
    List (String × StoreVal) :=
  (k, v) :: kv.filter (fun p => p.1 ≠ k)

/-- A `SignalState`: the encrypted kv table plus the `meta` table entries
(`localId`, `deviceId`, `registrationId`). -/
structure SigState where
  kv : List (String × StoreVal)
  localId : Option String
  deviceId : Option Nat
  registrationId : Option Nat
deriving DecidableEq, Repr

/-- Errors thrown by the signal-core functions. -/
inductive CoreErr where
  /-- "Identity key pair not found. Run 'mega init'." -/
  | identityNotFound
  /-- "Local identity not set. Run 'mega init'." -/
  | identityNotSet
  /-- `` `PreKey ${id} not found` `` -/
  | preKeyNotFound (id : Nat)
  /-- `` `SignedPreKey ${id} not found` `` -/
  | signedPreKeyNotFound (id : Nat)
  /-- `` `KyberPreKey ${id} not found` `` -/
  | kyberPreKeyNotFound (id : Nat)
  /-- `` `Unsupported ciphertext type: ${t}` `` -/
  | unsupportedCiphertextType (t : Nat)
deriving DecidableEq, Repr

/-- `loadIdentityKeyPair`: reads `local:identityKeyPair`, throws if absent. -/
def getIdentityKeyPair (st : SigState) : Except CoreErr (Nat × Nat) :=
  match kvGet st.kv IDENTITY_PAIR_KEY with
  | some (.idPair priv pub) => .ok (priv, pub)
  | _ => .error .identityNotFound

/-- `SqlitePreKeyStore.savePreKey`. -/
def savePreKey (st : SigState) (id : Nat) (r : PreKeyRec) : SigState :=
  { st with kv := kvSet st.kv (preKeyKey id) (.preKeyRec r) }

/-- `SqlitePreKeyStore.getPreKey`: throws `PreKey ${id} not found` if absent. -/
def getPreKey (st : SigState) (id : Nat) : Except CoreErr PreKeyRec :=
  match kvGet st.kv (preKeyKey id) with
  | some (.preKeyRec r) => .ok r
  | _ => .error (.preKeyNotFound id)

/-- `SqlitePreKeyStore.removePreKey`: deliberately keeps the prekey record
and only writes a used marker at `"prekey:used:" + id`. -/
def removePreKey (st : SigState) (id : Nat) (now : Nat) : SigState :=
  { st with kv := kvSet st.kv (preKeyUsedKey id) (.usedMark now) }

/-- `SqliteSignedPreKeyStore.saveSignedPreKey`. -/
def saveSignedPreKey (st : SigState) (id : Nat) (r : SignedPreKeyRec) : SigState :=
  { st with kv := kvSet st.kv (signedPreKeyKey id) (.signedPreKeyRec r) }

/-- `SqliteSignedPreKeyStore.getSignedPreKey`. -/
def getSignedPreKey (st : SigState) (id : Nat) : Except CoreErr SignedPreKeyRec :=
  match kvGet st.kv (signedPreKeyKey id) with
  | some (.signedPreKeyRec r) => .ok r
  | _ => .error (.signedPreKeyNotFound id)

/-- `SqliteKyberPreKeyStore.saveKyberPreKey`. -/
def saveKyberPreKey (st : SigState) (id : Nat) (r : KyberPreKeyRec) : SigState :=
  { st with kv := kvSet st.kv (kyberPreKeyKey id) (.kyberPreKeyRec r) }

/-- `SqliteKyberPreKeyStore.getKyberPreKey`. -/
def getKyberPreKey (st : SigState) (id : Nat) : Except CoreErr KyberPreKeyRec :=
  match kvGet st.kv (kyberPreKeyKey id) with
  | some (.kyberPreKeyRec r) => .ok r
  | _ => .error (.kyberPreKeyNotFound id)

/-- `SqliteKyberPreKeyStore.markKyberPreKeyUsed`. -/
def markKyberPreKeyUsed (st : SigState) (id signedPreKeyId baseKey now : Nat) : SigState :=
  { st with kv := (kvSet st.kv (kyberPreKeyUsedKey id)
      (.kyberUsedMark signedPreKeyId baseKey now)) }

/-- The stored value of a per-category counter, `?? start` when unset
(the code only ever stores numbers at counter keys). -/
def counterValue (st : SigState) (key : String) (start : Nat := 1) : Nat :=
  match kvGet st.kv key with
  | some (.num n) => n
  | _ => start

/-- `nextCounter(state, key, start = 1)`: read-then-increment, returning the
value before the increment. -/
def nextCounter (st : SigState) (key : String) (start : Nat := 1) : SigState × Nat :=
  let current := counterValue st key start
  ({ st with kv := kvSet st.kv key (.num (current + 1)) }, current)

/-- The operations `generatePreKeys`/`exportBundle` consume from
`@signalapp/libsignal-client`, treated as an opaque capability interface
(spec §6).  `genPriv i` is the result of the `i`-th `PrivateKey.generate()`
call inside one `generatePreKeys` invocation; `genKem` the single
`KEMKeyPair.generate()`; `sign priv msg` is `priv.sign(msg)`. -/
structure CryptoOps where
  genPriv : Nat → Nat
  pubOf : Nat → Nat
  serializePub : Nat → Nat
  sign : Nat → Nat → Nat
  genKem : Nat
  kemPubOf : Nat → Nat
  serializeKem : Nat → Nat

/-- The `for (let i = 0; i < count; i += 1)` loop of `generatePreKeys`:
allocate a counter id, generate a key pair, store the record. -/
def genOneTimeLoop (ops : CryptoOps) : SigState → Nat → Nat → SigState
  | st, 0, _ => st
  | st, Nat.succ n, i =>
    let step := nextCounter st COUNTER_PREKEY
    let priv := ops.genPriv i
    genOneTimeLoop ops (savePreKey step.1 step.2 ⟨step.2, ops.pubOf priv, priv⟩) n (i + 1)

/-- `generatePreKeys(state, count)`: `count` one-time prekeys, then one
signed prekey (signature by the identity private key over the serialized
signed-prekey public key), then one kyber prekey (also signed). -/
def generatePreKeys (ops : CryptoOps) (now : Nat) (st : SigState) (count : Nat := 1) :
    Except CoreErr SigState :=
  match getIdentityKeyPair st with
  | .error e => .error e
  | .ok idp =>
    let st1 := genOneTimeLoop ops st count 0
    let s := nextCounter st1 COUNTER_SIGNED_PREKEY
    let spkPriv := ops.genPriv count
    let spkPub := ops.pubOf spkPriv
    let spkSig := ops.sign idp.1 (ops.serializePub spkPub)
    let st2 := saveSignedPreKey s.1 s.2 ⟨s.2, now, spkPub, spkPriv, spkSig⟩
    let k := nextCounter st2 COUNTER_KYBER_PREKEY
    let kem := ops.genKem
    let kSig := ops.sign idp.1 (ops.serializeKem (ops.kemPubOf kem))
    .ok (saveKyberPreKey k.1 k.2 ⟨k.2, now, kem, kSig⟩)

/-- The publishable bundle (field tokens are the serialized blobs the
source base64-encodes). -/
structure ModelBundle where
  id : String
  deviceId : Nat
  registrationId : Nat
  identityKey : Nat
  signedPreKeyId : Nat
  signedPreKeyPublic : Nat
  signedPreKeySignature : Nat
  preKeyId : Nat
  preKeyPublic : Nat
  kyberPreKeyId : Nat
  kyberPreKeyPublic : Nat
  kyberPreKeySignature : Nat
deriving DecidableEq, Repr

/-- `exportBundle(state)`: reads the latest id of each category
(`counter − 1`, default counter 2), loads those records and the identity
key pair, and fails when the local identity is uninitialized. -/
def exportBundle (ops : CryptoOps) (st : SigState) : Except CoreErr ModelBundle :=
  match getIdentityKeyPair st with
  | .error e => .error e
  | .ok idp =>
    match st.localId, st.registrationId with
    | some localId, some registrationId =>
      let deviceId := st.deviceId.getD 1
      let signedPreKeyId := counterValue st COUNTER_SIGNED_PREKEY 2 - 1
      let preKeyId := counterValue st COUNTER_PREKEY 2 - 1
      let kyberPreKeyId := counterValue st COUNTER_KYBER_PREKEY 2 - 1
      match getSignedPreKey st signedPreKeyId, getPreKey st preKeyId,
            getKyberPreKey st kyberPreKeyId with
      | .error e, _, _ => .error e
      | _, .error e, _ => .error e
      | _, _, .error e => .error e
      | .ok spk, .ok pk, .ok kpk =>
        .ok { id := localId
              deviceId := deviceId
              registrationId := registrationId
              identityKey := ops.serializePub idp.2
              signedPreKeyId := signedPreKeyId
              signedPreKeyPublic := ops.serializePub spk.pubKey
              signedPreKeySignature := spk.signature
              preKeyId := preKeyId
              preKeyPublic := ops.serializePub pk.pubKey
              kyberPreKeyId := kyberPreKeyId
              kyberPreKeyPublic := ops.serializeKem (ops.kemPubOf kpk.kemPair)
              kyberPreKeySignature := kpk.signature }
    | _, _ => .error .identityNotSet

/-- `ProtocolAddress.new(name, deviceId)`. -/
structure ProtocolAddress where
  name : String
  deviceId : Nat
deriving DecidableEq, Repr

/-- `addressKey(address) = address.toString()`, which formats as
`name.deviceId`. -/
def addressKey (a : ProtocolAddress) : String :=
  a.name ++ "." ++ Nat.repr a.deviceId

/-- The session-table key `` `session:${addressKey(name)}` ``. -/
def sessionKey (a : ProtocolAddress) : String := "session:" ++ addressKey a

/-- The identity-table key `` `identity:${addressKey(name)}` ``. -/
def peerIdentityKey (a : ProtocolAddress) : String := "identity:" ++ addressKey a

/-- The wire envelope (`@mega/shared`), with the base64 ciphertext body as
an opaque token. -/
structure EnvelopeM where
  version : Nat
  senderId : String
  recipientId : String
  sessionId : String
  type : Nat
  body : Nat
  timestamp : Nat
deriving DecidableEq, Repr

/-- `CiphertextMessageType.Whisper` -/
def CIPHERTEXT_WHISPER : Nat := 2

/-- `CiphertextMessageType.PreKey` -/
def CIPHERTEXT_PREKEY : Nat := 3

/-- `initSession(state, bundle)`: builds `ProtocolAddress.new(bundle.id,
bundle.deviceId)` and runs the external `processPreKeyBundle` against it.
That routine's observable effect on the adapters — per its contract — is to
persist a session record for that address through `saveSession` and the
peer identity key through `saveIdentity`; the produced session record is
the token `sessionTok` (its internals, and the bundle-signature validation,
belong to the external library). -/
def initSession (sessionTok : Nat) (st : SigState) (bundle : ModelBundle) : SigState :=
  let address : ProtocolAddress := ⟨bundle.id, bundle.deviceId⟩
  { st with
    kv := (kvSet (kvSet st.kv (peerIdentityKey address) (.identityPub bundle.identityKey))
                 (sessionKey address) (.sessionRec sessionTok)) }

/-- `encryptMessage(state, recipientId, plaintext)`: encrypts to
`ProtocolAddress.new(recipientId, 1)`.  `extEncrypt` is `signalEncrypt`,
a function of the session record stored for that address (and the
plaintext); it returns the ciphertext `(type, serialized body)`. -/
def encryptMessage (extEncrypt : Option StoreVal → String → Nat × Nat) (now : Nat)
    (st : SigState) (recipientId : String) (plaintext : String) :
    Except CoreErr EnvelopeM :=
  let address : ProtocolAddress := ⟨recipientId, 1⟩
  let ciphertext := extEncrypt (kvGet st.kv (sessionKey address)) plaintext
  match st.localId with
  | none => .error .identityNotSet
  | some senderId =>
    .ok { version := 1
          senderId := senderId
          recipientId := recipientId
          sessionId := senderId ++ "::" ++ recipientId
          type := ciphertext.1
          body := ciphertext.2
          timestamp := now }

/-- `decryptMessage(state, envelope)`: decrypts with the session for
`ProtocolAddress.new(envelope.senderId, 1)`.  `extDecryptPreKey` and
`extDecrypt` are `signalDecryptPreKey` / `signalDecrypt` as functions of
that session record and the ciphertext body. -/
def decryptMessage (extDecryptPreKey extDecrypt : Option StoreVal → Nat → String)
    (st : SigState) (envelope : EnvelopeM) : Except CoreErr String :=
  let address : ProtocolAddress := ⟨envelope.senderId, 1⟩
  if envelope.type ≠ CIPHERTEXT_PREKEY ∧ envelope.type ≠ CIPHERTEXT_WHISPER then
    .error (.unsupportedCiphertextType envelope.type)
  else
    let sess := kvGet st.kv (sessionKey address)
    if envelope.type = CIPHERTEXT_PREKEY then .ok (extDecryptPreKey sess envelope.body)
    else .ok (extDecrypt sess envelope.body)

end Core

/-!
`SCrypto.*` — packages/signal-core/src/crypto.ts and the `EncryptedStore`
kv layer of store.ts.  JSON-like runtime values are the `JValue` tree
(`jbin` is a `Uint8Array`/`ArrayBuffer` view).  `JSON.stringify`/`JSON.parse`
and the UTF-8 step are lossless on binary-free values, so the abstract
AES-256-GCM pair (`aeadEnc`/`aeadDec`, node:crypto) consumes the replacer
output directly; base64 (`Buffer` encode/decode) is the abstract codec pair
`b64e`/`b64d`.
-/

namespace SCrypto

/-- One byte of a binary payload. -/
abbrev Byte := Fin 256

mutual

/-- A JSON-like runtime value, possibly holding binary payloads. -/
inductive JValue where
  | jnull
  | jbool (b : Bool)
  | jnum (n : Int)
  | jstr (s : String)
  | jbin (bytes : List Byte)
  | jarr (items : JArr)
  | jobj (fields : JObj)

/-- Elements of a JSON array. -/
inductive JArr where
  | nil
  | cons (hd : JValue) (tl : JArr)

/-- Fields of a JSON object, in insertion order. -/
inductive JObj where
  | nil
  | cons (key : String) (val : JValue) (tl : JObj)

end

/-- Property access `fields[key]` (objects cannot hold duplicate keys, so
the first match is the value). -/
def JObj.lookupField : JObj → String → Option JValue
  | .nil, _ => none
  | .cons k v tl, key => if k = key then some v else tl.lookupField key

mutual

/-- `encodeValue`'s `JSON.stringify` replacer: every `ArrayBuffer` or view
becomes the tagged object `{__type: "ab", data: <base64>}`; everything else
is kept. -/
def encodeValue (b64e : List Byte → String) : JValue → JValue
  | .jnull => .jnull
  | .jbool b => .jbool b
  | .jnum n => .jnum n
  | .jstr s => .jstr s
  | .jbin bytes =>
    .jobj (.cons "__type" (.jstr "ab") (.cons "data" (.jstr (b64e bytes)) .nil))
  | .jarr items => .jarr (encodeArr b64e items)
  | .jobj fields => .jobj (encodeObj b64e fields)

def encodeArr (b64e : List Byte → String) : JArr → JArr
  | .nil => .nil
  | .cons hd tl => .cons (encodeValue b64e hd) (encodeArr b64e tl)

def encodeObj (b64e : List Byte → String) : JObj → JObj
  | .nil => .nil
  | .cons k v tl => .cons k (encodeValue b64e v) (encodeObj b64e tl)

end

mutual

/-- `decodeValue`'s `JSON.parse` reviver, which runs bottom-up: any object
whose (revived) `__type` property is `"ab"` is turned back into a
`Uint8Array` via `Buffer.from(val.data, "base64")`.  `none` models the
`TypeError` `Buffer.from` raises when such an object carries no string
`data`. -/
def decodeValue (b64d : String → List Byte) : JValue → Option JValue
  | .jnull => some .jnull
  | .jbool b => some (.jbool b)
  | .jnum n => some (.jnum n)
  | .jstr s => some (.jstr s)
  | .jbin bytes => some (.jbin bytes)
  | .jarr items =>
    match decodeArr b64d items with
    | none => none
    | some its => some (.jarr its)
  | .jobj fields =>
    match decodeObj b64d fields with
    | none => none
    | some fs =>
      match fs.lookupField "__type" with
      | some (.jstr "ab") =>
        match fs.lookupField "data" with
        | some (.jstr s) => some (.jbin (b64d s))
        | _ => none
      | _ => some (.jobj fs)

def decodeArr (b64d : String → List Byte) : JArr → Option JArr
  | .nil => some .nil
  | .cons hd tl =>
    match decodeValue b64d hd, decodeArr b64d tl with
    | some h, some t => some (.cons h t)
    | _, _ => none

def decodeObj (b64d : String → List Byte) : JObj → Option JObj
  | .nil => some .nil
  | .cons k v tl =>
    match decodeValue b64d v, decodeObj b64d tl with
    | some h, some t => some (.cons k h t)
    | _, _ => none

end

mutual

/-- No object anywhere in the value uses the serializer's reserved tag
shape (a `__type` property equal to `"ab"`). -/
def noReservedTag : JValue → Bool
  | .jnull => true
  | .jbool _ => true
  | .jnum _ => true
  | .jstr _ => true
  | .jbin _ => true
  | .jarr items => noReservedTagArr items
  | .jobj fields =>
    (match fields.lookupField "__type" with
     | some (.jstr s) => s ≠ "ab"
     | _ => true) && noReservedTagObj fields

def noReservedTagArr : JArr → Bool
  | .nil => true
  | .cons hd tl => noReservedTag hd && noReservedTagArr tl

def noReservedTagObj : JObj → Bool
  | .nil => true
  | .cons _ v tl => noReservedTag v && noReservedTagObj tl

end

/-- Failures surfaced by the encrypted store. -/
inductive StoreErr where
  /-- The GCM authentication-tag check in `decryptBuffer` failed
  (`decipher.final()` throws): wrong passphrase-derived key or tampered
  payload. -/
  | tamperOrWrongPassphrase
  /-- The reviver hit a tagged object without a string `data` property. -/
  | malformedTaggedValue
deriving DecidableEq, Repr

/-- The kv table of an `EncryptedStore`: each value slot holds the
`encryptBuffer` payload (iv ‖ tag ‖ ciphertext) of abstract type `Ct`. -/
structure EncStore (Ct : Type) where
  kv : List (String × Ct)

/-- `encryptJson(key, value)`: replacer pass, then serialize + AEAD-encrypt
(`encryptBuffer` with a fresh random `iv`). -/
def encryptJson {Ct : Type} (aeadEnc : Nat → Nat → JValue → Ct)
    (b64e : List Byte → String) (key iv : Nat) (value : JValue) : Ct :=
  aeadEnc key iv (encodeValue b64e value)

/-- `decryptJson(key, payload)`: AEAD-decrypt (`decryptBuffer`, which fails
closed on tag mismatch), then parse and run the reviver. -/
def decryptJson {Ct : Type} (aeadDec : Nat → Ct → Option JValue)
    (b64d : String → List Byte) (key : Nat) (payload : Ct) :
    Except StoreErr JValue :=
  match aeadDec key payload with
  | none => .error .tamperOrWrongPassphrase
  | some decoded =>
    match decodeValue b64d decoded with
    | none => .error .malformedTaggedValue
    | some v => .ok v

/-- `EncryptedStore.get`: `undefined` when the key is absent, otherwise
`decryptJson` of the stored payload (its errors propagate to the caller). -/
def esGet {Ct : Type} (aeadDec : Nat → Ct → Option JValue)
    (b64d : String → List Byte) (key : Nat) (store : EncStore Ct)
    (k : String) : Except StoreErr (Option JValue) :=
  match store.kv.lookup k with
  | none => .ok none
  | some payload =>
    match decryptJson aeadDec b64d key payload with
    | .error e => .error e
    | .ok v => .ok (some v)

/-- `EncryptedStore.set`: `INSERT OR REPLACE` of the encrypted payload. -/
def esSet {Ct : Type} (aeadEnc : Nat → Nat → JValue → Ct)
    (b64e : List Byte → String) (key iv : Nat) (store : EncStore Ct)
    (k : String) (value : JValue) : EncStore Ct :=
  { kv := (k, encryptJson aeadEnc b64e key iv value) :: store.kv.filter (fun p => p.1 ≠ k) }

/-- A concrete base64-style codec used to instantiate witnesses: each byte
becomes the Unicode scalar with its value. -/
def toyB64e (bs : List Byte) : String :=
  ⟨bs.map fun b => Char.ofNat b.val⟩

/-- Inverse of `toyB64e`. -/
def toyB64d (s : String) : List Byte :=
  s.data.map fun c => (⟨c.toNat % 256, Nat.mod_lt _ (by omega)⟩ : Byte)

end SCrypto

/-! ### Shared association-list lemmas -/

theorem lookup_cons_eq {β : Type} (k : String) (b : β) (es : List (String × β)) :
    ((k, b) :: es).lookup k = some b := by
  rw [List.lookup_cons]
  simp

theorem lookup_cons_ne {β : Type} {a k : String} (b : β) (es : List (String × β))
    (h : a ≠ k) : ((k, b) :: es).lookup a = es.lookup a := by
  rw [List.lookup_cons]
  have hb : (a == k) = false := beq_eq_false_iff_ne.mpr h
  rw [hb]

theorem lookup_filter_ne {β : Type} {i j : String} (l : List (String × β)) (h : i ≠ j) :
    (l.filter fun p => p.1 ≠ j).lookup i = l.lookup i := by
  induction l with
  | nil => rfl
  | cons hd tl ih =>
    obtain ⟨k, b⟩ := hd
    rw [List.filter_cons]
    by_cases hk : k = j
    · rw [if_neg (by simp [hk])]
      rw [ih, lookup_cons_ne b tl (by rw [hk]; exact h)]
    · rw [if_pos (by simpa using hk)]
      by_cases hik : i = k
      · subst hik
        rw [lookup_cons_eq, lookup_cons_eq]
      · rw [lookup_cons_ne b _ hik, lookup_cons_ne b tl hik, ih]

/-! ### Connection-table lemmas (claim C2) -/

theorem closeExisting_conns (t : Relay.ConnTable) (id : String) (ws : Nat) :
    (Relay.closeExisting t id ws).conns = t.conns := by
  unfold Relay.closeExisting
  cases t.conns.lookup id <;> simp only
  split <;> rfl

theorem nodupKeys_setConn {conns : List (String × Nat)} (id : String) (ws : Nat)
    (h : (conns.map Prod.fst).Nodup) :
    ((Relay.setConn conns id ws).map Prod.fst).Nodup := by
  unfold Relay.setConn
  simp only [List.map_cons, List.nodup_cons]
  constructor
  · intro hmem
    obtain ⟨p, hp, hpe⟩ := List.mem_map.mp hmem
    have hne := List.of_mem_filter hp
    simp only [decide_eq_true_eq] at hne
    exact hne hpe
  · exact (((List.filter_sublist _)).map Prod.fst).nodup h

theorem nodupKeys_connStep {t : Relay.ConnTable} (e : Relay.ConnEvent)
    (h : (t.conns.map Prod.fst).Nodup) :
    (((Relay.connStep t e).conns).map Prod.fst).Nodup := by
  cases e with
  | connect id ws =>
    simp only [Relay.connStep, Relay.onConnection, Relay.bindConn]
    rw [closeExisting_conns]
    exact nodupKeys_setConn id ws h
  | socketClosed id ws =>
    simp only [Relay.connStep, Relay.onSocketGone]
    split
    · exact (((List.filter_sublist _)).map Prod.fst).nodup h
    · exact h
  | socketError id ws =>
    simp only [Relay.connStep, Relay.onSocketGone]
    split
    · exact (((List.filter_sublist _)).map Prod.fst).nodup h
    · exact h

theorem nodupKeys_foldl_connStep (evs : List Relay.ConnEvent) (t : Relay.ConnTable)
    (h : (t.conns.map Prod.fst).Nodup) :
    (((evs.foldl Relay.connStep t).conns).map Prod.fst).Nodup := by
  induction evs generalizing t with
  | nil => exact h
  | cons e rest ih => exact ih _ (nodupKeys_connStep e h)

theorem filter_key_length_le_one {l : List (String × Nat)} (i : String)
    (h : (l.map Prod.fst).Nodup) : (l.filter (fun p => p.1 = i)).length ≤ 1 := by
  induction l with
  | nil => simp
  | cons hd tl ih =>
    simp only [List.map_cons, List.nodup_cons] at h
    rw [List.filter_cons]
    by_cases hk : hd.1 = i
    · rw [if_pos (by simpa using hk)]
      have hnil : tl.filter (fun p => decide (p.1 = i)) = [] := by
        apply List.filter_eq_nil_iff.mpr
        intro p hp hpi
        simp only [decide_eq_true_eq] at hpi
        exact h.1 (List.mem_map.mpr ⟨p, hp, by rw [hpi, hk]⟩)
      rw [hnil]
      simp
    · rw [if_neg (by simpa using hk)]
      exact ih h.2

theorem liveCount_le_one_of_nodup {t : Relay.ConnTable} (i : String)
    (h : (t.conns.map Prod.fst).Nodup) : Relay.liveCount t i ≤ 1 :=
  filter_key_length_le_one i h

/-- C2: for every identity the relay holds at most one live push connection at
every observable instant — including the instants inside the `connection`
handler — and when a second socket claims an id already held, the existing
socket is closed with the supersession reason (code 4000, "superseded")
before the connection map is updated, after which the new socket is the
authoritative one for that id. -/
theorem relay_single_connection_supersession
    (evs : List Relay.ConnEvent) (qid : String)
    (t : Relay.ConnTable) (id : String) (ws ex : Nat)
    (hInv : (t.conns.map Prod.fst).Nodup)
    (hEx : t.conns.lookup id = some ex) (hNe : ex ≠ ws) :
    Relay.liveCount (Relay.runConn evs) qid ≤ 1
    ∧ (∀ s ∈ Relay.onConnectionTrace t id ws, ∀ i, Relay.liveCount s i ≤ 1)
    ∧ (Relay.closeExisting t id ws).closedLog = t.closedLog ++ [(ex, 4000, "superseded")]
    ∧ (Relay.closeExisting t id ws).conns = t.conns
    ∧ (Relay.onConnection t id ws).conns.lookup id = some ws
    ∧ (Relay.onConnection t id ws).closedLog = t.closedLog ++ [(ex, 4000, "superseded")] := by
  have hClose : Relay.closeExisting t id ws
      = { t with closedLog := t.closedLog ++ [(ex, 4000, "superseded")] } := by
    unfold Relay.closeExisting
    rw [hEx]
    exact if_pos hNe
  refine ⟨?_, ?_, ?_, ?_, ?_, ?_⟩
  · exact liveCount_le_one_of_nodup qid (nodupKeys_foldl_connStep evs _ (by simp))
  · intro s hs i
    simp only [Relay.onConnectionTrace, List.mem_cons, List.mem_singleton,
      List.not_mem_nil, or_false] at hs
    rcases hs with rfl | rfl | rfl
    · exact liveCount_le_one_of_nodup i hInv
    · exact liveCount_le_one_of_nodup i (by rw [closeExisting_conns]; exact hInv)
    · exact liveCount_le_one_of_nodup i
        (by
          simp only [Relay.onConnection, Relay.bindConn]
          rw [closeExisting_conns]
          exact nodupKeys_setConn id ws hInv)
  · rw [hClose]
  · rw [hClose]
  · simp only [Relay.onConnection, Relay.bindConn, Relay.setConn]
    rw [closeExisting_conns]
    exact lookup_cons_eq id ws _
  · simp only [Relay.onConnection, Relay.bindConn]
    rw [hClose]

/-- Witness for C2 at a concrete table and event list. -/
theorem relay_single_connection_supersession_witness :
    Relay.liveCount
      (Relay.runConn [.connect "alice" 1, .connect "alice" 2]) "alice" ≤ 1
    ∧ (∀ s ∈ Relay.onConnectionTrace ⟨[("alice", 1)], []⟩ "alice" 2,
        ∀ i, Relay.liveCount s i ≤ 1)
    ∧ (Relay.closeExisting ⟨[("alice", 1)], []⟩ "alice" 2).closedLog
        = [] ++ [(1, 4000, "superseded")]
    ∧ (Relay.closeExisting ⟨[("alice", 1)], []⟩ "alice" 2).conns = [("alice", 1)]
    ∧ (Relay.onConnection ⟨[("alice", 1)], []⟩ "alice" 2).conns.lookup "alice" = some 2
    ∧ (Relay.onConnection ⟨[("alice", 1)], []⟩ "alice" 2).closedLog
        = [] ++ [(1, 4000, "superseded")] :=
  relay_single_connection_supersession
    [.connect "alice" 1, .connect "alice" 2] "alice"
    ⟨[("alice", 1)], []⟩ "alice" 2 1
    (by decide) (by decide) (by decide)

/-- Marking an id that is absent from a message list leaves it unchanged. -/
theorem msgMark_not_present (l : List Relay.MessageRow) (mid : Nat)
    (h : mid ∉ l.map (fun r => r.id)) :
    (l.map fun r => if r.id = mid then { r with delivered := true } else r) = l := by
  have hc : ∀ r ∈ l, (if r.id = mid then { r with delivered := true } else r) = r := by
    intro r hr
    rw [if_neg]
    intro he
    exact h (List.mem_map.mpr ⟨r, hr, he⟩)
  rw [List.map_congr_left hc]
  simp

/-- C3: `submit(from, to, envelope)` with an unregistered recipient returns
the 404-class NotRegistered error and leaves the whole server state — in
particular the message queue — unchanged; with a registered recipient it
appends exactly one queue entry, touches nothing else, and responds
`{queued: true, delivered}` where `delivered` matches the entry's stored
delivered flag. -/
theorem relay_submit_registration_gate
    (wsOpen : Nat → Bool) (pushOk : Nat → Relay.MessageRow → Bool)
    (srv : Relay.RelayServer) (fromId toId envelopeJson : String) (msgId now : Nat)
    (hFresh : msgId ∉ srv.db.messages.map (fun r => r.id)) :
    (Relay.userExists srv.db toId = false →
      Relay.submit wsOpen pushOk srv fromId toId envelopeJson msgId now
        = (srv, .notRegistered))
    ∧ (Relay.userExists srv.db toId = true →
      ∃ d : Bool,
        (Relay.submit wsOpen pushOk srv fromId toId envelopeJson msgId now).2
          = .accepted true d
        ∧ (Relay.submit wsOpen pushOk srv fromId toId envelopeJson msgId now).1.db.messages
          = srv.db.messages ++
            [{ id := msgId, toId := toId, fromId := fromId,
               envelopeJson := envelopeJson, createdAt := now, delivered := d }]
        ∧ (Relay.submit wsOpen pushOk srv fromId toId envelopeJson msgId now).1.db.users
          = srv.db.users
        ∧ (Relay.submit wsOpen pushOk srv fromId toId envelopeJson msgId now).1.db.prekeys
          = srv.db.prekeys
        ∧ (Relay.submit wsOpen pushOk srv fromId toId envelopeJson msgId now).1.connections
          = srv.connections) := by
  constructor
  · intro h
    simp [Relay.submit, h]
  · intro h
    simp only [Relay.submit, h, Bool.true_eq_false, if_false,
      Relay.deliverIfConnected, Relay.msgInsert]
    cases hl : srv.connections.lookup toId with
    | none =>
      refine ⟨false, ?_, ?_, ?_, ?_, ?_⟩ <;> simp [hl]
    | some ws =>
      cases hOpen : wsOpen ws with
      | false =>
        refine ⟨false, ?_, ?_, ?_, ?_, ?_⟩ <;> simp [hl, hOpen]
      | true =>
        cases hPush : pushOk ws
          { id := msgId, toId := toId, fromId := fromId,
            envelopeJson := envelopeJson, createdAt := now, delivered := false } with
        | false =>
          refine ⟨false, ?_, ?_, ?_, ?_, ?_⟩ <;> simp [hl, hOpen, hPush]
        | true =>
          refine ⟨true, ?_, ?_, ?_, ?_, ?_⟩ <;>
            simp [hl, hOpen, hPush, Relay.msgMarkDelivered, List.map_append,
              msgMark_not_present _ _ hFresh]

/-- Witness for C3 at a concrete server state. -/
theorem relay_submit_registration_gate_witness :
    (Relay.userExists (Relay.RelayServer.mk ⟨["bob"], [], []⟩ []).db "bob" = false →
      Relay.submit (fun _ => true) (fun _ _ => true)
        ⟨⟨["bob"], [], []⟩, []⟩ "a" "bob" "env" 7 5
        = (⟨⟨["bob"], [], []⟩, []⟩, .notRegistered))
    ∧ (Relay.userExists (Relay.RelayServer.mk ⟨["bob"], [], []⟩ []).db "bob" = true →
      ∃ d : Bool,
        (Relay.submit (fun _ => true) (fun _ _ => true)
          ⟨⟨["bob"], [], []⟩, []⟩ "a" "bob" "env" 7 5).2 = .accepted true d
        ∧ (Relay.submit (fun _ => true) (fun _ _ => true)
            ⟨⟨["bob"], [], []⟩, []⟩ "a" "bob" "env" 7 5).1.db.messages
          = (Relay.RelayServer.mk ⟨["bob"], [], []⟩ []).db.messages ++
            [{ id := 7, toId := "bob", fromId := "a",
               envelopeJson := "env", createdAt := 5, delivered := d }]
        ∧ (Relay.submit (fun _ => true) (fun _ _ => true)
            ⟨⟨["bob"], [], []⟩, []⟩ "a" "bob" "env" 7 5).1.db.users
          = (Relay.RelayServer.mk ⟨["bob"], [], []⟩ []).db.users
        ∧ (Relay.submit (fun _ => true) (fun _ _ => true)
            ⟨⟨["bob"], [], []⟩, []⟩ "a" "bob" "env" 7 5).1.db.prekeys
          = (Relay.RelayServer.mk ⟨["bob"], [], []⟩ []).db.prekeys
        ∧ (Relay.submit (fun _ => true) (fun _ _ => true)
            ⟨⟨["bob"], [], []⟩, []⟩ "a" "bob" "env" 7 5).1.connections
          = (Relay.RelayServer.mk ⟨["bob"], [], []⟩ []).connections) :=
  relay_submit_registration_gate (fun _ => true) (fun _ _ => true)
    ⟨⟨["bob"], [], []⟩, []⟩ "a" "bob" "env" 7 5 (by decide)

/-- C4: bundle publication is last-write-wins — after `publishBundle(id, B1)`
then `publishBundle(id, B2)` (both accepted for a registered id),
`fetchBundle(id)` returns exactly `B2`; a publish for a different identity
does not disturb `id`'s stored bundle; and `fetchBundle` on an identity with
no published bundle returns the 404-class NotFound value rather than
crashing. -/
theorem relay_bundle_last_write_wins
    (db : Relay.RelayDb) (id : String) (b1 b2 : String)
    (hReg : Relay.userExists db id = true) :
    (Relay.publishBundle db id b1).2 = .ok
    ∧ (Relay.publishBundle (Relay.publishBundle db id b1).1 id b2).2 = .ok
    ∧ Relay.fetchBundle (Relay.publishBundle (Relay.publishBundle db id b1).1 id b2).1 id
        = .found id b2
    ∧ (∀ (d : Relay.RelayDb) (i : String),
        Relay.prekeyGet d i = none → Relay.fetchBundle d i = .notFound)
    ∧ (∀ (d : Relay.RelayDb) (i j : String) (b : String), i ≠ j →
        Relay.prekeyGet (Relay.publishBundle d j b).1 i = Relay.prekeyGet d i) := by
  have hReg1 : Relay.userExists (Relay.prekeyUpsert db id b1) id = true := hReg
  refine ⟨?_, ?_, ?_, ?_, ?_⟩
  · simp [Relay.publishBundle, hReg]
  · simp [Relay.publishBundle, hReg, hReg1]
  · simp only [Relay.publishBundle, hReg, hReg1, Bool.true_eq_false, if_false]
    simp only [Relay.fetchBundle, Relay.prekeyGet, Relay.prekeyUpsert]
    rw [lookup_cons_eq]
  · intro d i hnone
    simp [Relay.fetchBundle, hnone]
  · intro d i j b hij
    simp only [Relay.publishBundle]
    split
    · rfl
    · simp only [Relay.prekeyGet, Relay.prekeyUpsert]
      rw [lookup_cons_ne _ _ hij, lookup_filter_ne _ hij]

/-- Witness for C4 at a concrete database. -/
theorem relay_bundle_last_write_wins_witness :
    (Relay.publishBundle ⟨["alice"], [], []⟩ "alice" "B1").2 = .ok
    ∧ (Relay.publishBundle (Relay.publishBundle ⟨["alice"], [], []⟩ "alice" "B1").1
        "alice" "B2").2 = .ok
    ∧ Relay.fetchBundle
        (Relay.publishBundle (Relay.publishBundle ⟨["alice"], [], []⟩ "alice" "B1").1
          "alice" "B2").1 "alice" = .found "alice" "B2"
    ∧ (∀ (d : Relay.RelayDb) (i : String),
        Relay.prekeyGet d i = none → Relay.fetchBundle d i = .notFound)
    ∧ (∀ (d : Relay.RelayDb) (i j : String) (b : String), i ≠ j →
        Relay.prekeyGet (Relay.publishBundle d j b).1 i = Relay.prekeyGet d i) :=
  relay_bundle_last_write_wins ⟨["alice"], [], []⟩ "alice" "B1" "B2" (by decide)

/-! ### Replay-ordering lemmas (claim C1) -/

theorem insertByCreatedAt_of_all_le (r : Relay.MessageRow) (acc : List Relay.MessageRow)
    (h : ∀ x ∈ acc, x.createdAt ≤ r.createdAt) :
    Relay.insertByCreatedAt r acc = acc ++ [r] := by
  induction acc with
  | nil => rfl
  | cons x xs ih =>
    simp only [Relay.insertByCreatedAt]
    rw [if_pos (h x (List.mem_cons_self x xs))]
    rw [ih (fun y hy => h y (List.mem_cons_of_mem x hy))]
    rfl

theorem foldl_insert_of_sorted :
    ∀ (l acc : List Relay.MessageRow),
    (acc ++ l).Pairwise (fun a b => a.createdAt ≤ b.createdAt) →
    l.foldl (fun a r => Relay.insertByCreatedAt r a) acc = acc ++ l := by
  intro l
  induction l with
  | nil =>
    intro acc _
    simp
  | cons x xs ih =>
    intro acc h
    rw [List.foldl_cons]
    have hle : ∀ y ∈ acc, y.createdAt ≤ x.createdAt := by
      intro y hy
      exact (List.pairwise_append.mp h).2.2 y hy x (List.mem_cons_self x xs)
    rw [insertByCreatedAt_of_all_le x acc hle]
    have h' : ((acc ++ [x]) ++ xs).Pairwise (fun a b => a.createdAt ≤ b.createdAt) := by
      simpa using h
    rw [ih (acc ++ [x]) h']
    simp

theorem orderByCreatedAt_sorted_id (l : List Relay.MessageRow)
    (h : l.Pairwise (fun a b => a.createdAt ≤ b.createdAt)) :
    Relay.orderByCreatedAt l = l := by
  unfold Relay.orderByCreatedAt
  simpa using foldl_insert_of_sorted l [] (by simpa using h)

theorem replayRows_spec (pushOk : Nat → Relay.MessageRow → Bool) (ws : Nat) :
    ∀ (rows : List Relay.MessageRow) (db : Relay.RelayDb),
    Relay.replayRows pushOk ws db rows
      = (Relay.markList db (rows.takeWhile (pushOk ws)), rows.takeWhile (pushOk ws)) := by
  intro rows
  induction rows with
  | nil =>
    intro db
    rfl
  | cons r rest ih =>
    intro db
    simp only [Relay.replayRows]
    cases h : pushOk ws r with
    | true => simp [h, List.takeWhile_cons, ih, Relay.markList]
    | false => simp [h, List.takeWhile_cons, Relay.markList]

theorem markList_messages :
    ∀ (S : List Relay.MessageRow) (db : Relay.RelayDb),
    (Relay.markList db S).messages
      = db.messages.map (fun r =>
          if r.id ∈ S.map (fun x => x.id) then { r with delivered := true } else r) := by
  intro S
  induction S with
  | nil =>
    intro db
    simp [Relay.markList]
  | cons x S' ih =>
    intro db
    have h1 : Relay.markList db (x :: S') = Relay.markList (Relay.msgMarkDelivered db x.id) S' := rfl
    rw [h1, ih]
    simp only [Relay.msgMarkDelivered, List.map_map, List.map_cons]
    apply List.map_congr_left
    intro r _
    by_cases hx : r.id = x.id <;> by_cases hS : r.id ∈ S'.map (fun x => x.id) <;>
      simp [Function.comp, hx, hS]

theorem filter_marked (toId : String) (msgs : List Relay.MessageRow) (S : List Nat) :
    (msgs.map (fun r => if r.id ∈ S then { r with delivered := true } else r)).filter
        (fun r => r.toId = toId ∧ r.delivered = false)
      = (msgs.filter (fun r => r.toId = toId ∧ r.delivered = false)).filter
        (fun r => r.id ∉ S) := by
  rw [List.filter_map, List.filter_filter]
  have hcong : ∀ r ∈ msgs,
      ((fun r => decide (r.toId = toId ∧ r.delivered = false)) ∘
        (fun r => if r.id ∈ S then { r with delivered := true } else r)) r
      = ((fun r => decide (r.id ∉ S)) r && (fun r => decide (r.toId = toId ∧ r.delivered = false)) r) := by
    intro r _
    by_cases hx : r.id ∈ S <;> simp [hx]
  rw [List.filter_congr hcong]
  have hid : ∀ r ∈ msgs.filter
      (fun r => (fun r => decide (r.id ∉ S)) r && (fun r => decide (r.toId = toId ∧ r.delivered = false)) r),
      (fun r => if r.id ∈ S then { r with delivered := true } else r) r = r := by
    intro r hr
    have hm := List.of_mem_filter hr
    simp only [Bool.and_eq_true, decide_eq_true_eq] at hm
    exact if_neg hm.1
  rw [List.map_congr_left hid]
  simp

theorem dropWhile_head_false {p : Relay.MessageRow → Bool}
    (l : List Relay.MessageRow) (hd : Relay.MessageRow) (tl : List Relay.MessageRow)
    (h : l.dropWhile p = hd :: tl) : p hd = false := by
  induction l with
  | nil => simp at h
  | cons x xs ih =>
    rw [List.dropWhile_cons] at h
    by_cases hx : p x
    · rw [if_pos hx] at h
      exact ih h
    · rw [if_neg hx] at h
      cases h
      exact Bool.not_eq_true _ ▸ (by simpa using hx)

theorem takeWhile_all {p : Relay.MessageRow → Bool} :
    ∀ (l : List Relay.MessageRow), (∀ x ∈ l, p x = true) → l.takeWhile p = l := by
  intro l h
  exact List.takeWhile_eq_self_iff.mpr h

/-- C1: on connect, the relay's replay processes the recipient's undelivered
queue entries in increasing enqueue-time order: the pushed rows are exactly a
prefix of the pending queue (so no later-submitted envelope is delivered
before an earlier one), every pushed row's push succeeded, replay stops at
the first push failure, the rows not pushed remain queued (they are exactly
the pending queue afterwards), and a pending envelope E is delivered at most
once — exactly once when every push succeeds. -/
theorem relay_replay_enqueue_order_exactly_once
    (db : Relay.RelayDb) (toId : String) (pushOk : Nat → Relay.MessageRow → Bool)
    (ws : Nat) (E : Relay.MessageRow)
    (hSorted : db.messages.Pairwise (fun a b => a.createdAt ≤ b.createdAt))
    (hNodup : (db.messages.map (fun r => r.id)).Nodup)
    (hE : E ∈ Relay.msgPending db toId) :
    ∀ pend out db',
      pend = Relay.msgPending db toId →
      (db', out) = Relay.deliverPending pushOk ws db toId →
      (out ++ pend.drop out.length = pend)
      ∧ (∀ r ∈ out, pushOk ws r = true)
      ∧ (∀ hd tl, pend.drop out.length = hd :: tl → pushOk ws hd = false)
      ∧ Relay.msgPending db' toId = pend.drop out.length
      ∧ out.count E ≤ 1
      ∧ ((∀ r ∈ pend, pushOk ws r = true) → out.count E = 1)
      ∧ pend.Pairwise (fun a b => a.createdAt ≤ b.createdAt) := by
  intro pend out db' hp hdo
  have hFP : (db.messages.filter (fun r => r.toId = toId ∧ r.delivered = false)).Pairwise
      (fun a b => a.createdAt ≤ b.createdAt) := hSorted.filter _
  have hpend : Relay.msgPending db toId
      = db.messages.filter (fun r => r.toId = toId ∧ r.delivered = false) :=
    orderByCreatedAt_sorted_id _ hFP
  have hres : Relay.deliverPending pushOk ws db toId
      = (Relay.markList db
          ((db.messages.filter (fun r => r.toId = toId ∧ r.delivered = false)).takeWhile
            (pushOk ws)),
         (db.messages.filter (fun r => r.toId = toId ∧ r.delivered = false)).takeWhile
            (pushOk ws)) := by
    unfold Relay.deliverPending
    rw [hpend]
    exact replayRows_spec pushOk ws _ db
  rw [hres] at hdo
  injection hdo with hdb hout
  subst hdb
  subst hout
  subst hp
  set F := db.messages.filter (fun r => r.toId = toId ∧ r.delivered = false) with hF
  set tw := F.takeWhile (pushOk ws) with htw
  have hsplit : tw ++ F.dropWhile (pushOk ws) = F :=
    List.takeWhile_append_dropWhile (pushOk ws) F
  have hdrop : F.drop tw.length = F.dropWhile (pushOk ws) := by
    conv_lhs => rw [← hsplit]
    rw [List.drop_left]
  have hFid : (F.map (fun r => r.id)).Nodup :=
    List.Nodup.sublist ((List.filter_sublist _).map _) hNodup
  have hFnodup : F.Nodup := List.Nodup.of_map _ hFid
  have hEF : E ∈ F := by rw [← hpend]; exact hE
  refine ⟨?_, ?_, ?_, ?_, ?_, ?_, ?_⟩
  · rw [hpend, hdrop]
    exact hsplit
  · intro r hr
    exact List.mem_takeWhile_imp hr
  · intro hd tl h
    rw [hpend, hdrop] at h
    exact dropWhile_head_false _ _ _ h
  · rw [hpend, hdrop]
    unfold Relay.msgPending
    rw [markList_messages, filter_marked]
    have hFsplit : F = tw ++ F.dropWhile (pushOk ws) := hsplit.symm
    have hdisj : ∀ r ∈ F.dropWhile (pushOk ws), r.id ∉ tw.map (fun x => x.id) := by
      intro r hr hmem
      have hFid2 : ((tw ++ F.dropWhile (pushOk ws)).map (fun x => x.id)).Nodup := by
        rw [← hFsplit]
        exact hFid
      rw [List.map_append] at hFid2
      exact List.disjoint_of_nodup_append hFid2 hmem
        (List.mem_map.mpr ⟨r, hr, rfl⟩)
    have hfil : F.filter (fun r => r.id ∉ tw.map (fun x => x.id))
        = F.dropWhile (pushOk ws) := by
      conv_lhs => rw [hFsplit]
      rw [List.filter_append]
      have h1 : tw.filter (fun r => r.id ∉ tw.map (fun x => x.id)) = [] := by
        apply List.filter_eq_nil_iff.mpr
        intro r hr hc
        simp only [decide_eq_true_eq] at hc
        exact hc (List.mem_map.mpr ⟨r, hr, rfl⟩)
      have h2 : (F.dropWhile (pushOk ws)).filter
          (fun r => r.id ∉ tw.map (fun x => x.id)) = F.dropWhile (pushOk ws) := by
        apply List.filter_eq_self.mpr
        intro r hr
        simp only [decide_eq_true_eq]
        exact hdisj r hr
      rw [h1, h2]
      simp
    rw [hfil]
    apply orderByCreatedAt_sorted_id
    apply List.Pairwise.sublist ?_ hFP
    conv_rhs => rw [hFsplit]
    exact List.sublist_append_right _ _
  · exact List.nodup_iff_count_le_one.mp
      (List.Nodup.sublist (List.takeWhile_sublist _) hFnodup) E
  · intro hall
    rw [hpend] at hall
    have htww : tw = F := takeWhile_all F hall
    rw [htww]
    exact List.count_eq_one_of_mem hFnodup hEF
  · rw [hpend]
    exact hFP

/-- Witness for C1: two queued envelopes for "bob", all pushes succeed; the
queue replays to empty and the first envelope is delivered exactly once. -/
theorem relay_replay_enqueue_order_exactly_once_witness :
    Relay.msgPending
        (Relay.deliverPending (fun _ _ => true) 9
          ⟨["bob"], [], [⟨1, "bob", "alice", "env1", 10, false⟩,
                         ⟨2, "bob", "alice", "env2", 20, false⟩]⟩ "bob").1 "bob"
      = (Relay.msgPending
          ⟨["bob"], [], [⟨1, "bob", "alice", "env1", 10, false⟩,
                         ⟨2, "bob", "alice", "env2", 20, false⟩]⟩ "bob").drop
          (Relay.deliverPending (fun _ _ => true) 9
            ⟨["bob"], [], [⟨1, "bob", "alice", "env1", 10, false⟩,
                           ⟨2, "bob", "alice", "env2", 20, false⟩]⟩ "bob").2.length
    ∧ (Relay.deliverPending (fun _ _ => true) 9
        ⟨["bob"], [], [⟨1, "bob", "alice", "env1", 10, false⟩,
                       ⟨2, "bob", "alice", "env2", 20, false⟩]⟩ "bob").2.count
        ⟨1, "bob", "alice", "env1", 10, false⟩ = 1 := by
  have h := relay_replay_enqueue_order_exactly_once
    ⟨["bob"], [], [⟨1, "bob", "alice", "env1", 10, false⟩,
                   ⟨2, "bob", "alice", "env2", 20, false⟩]⟩
    "bob" (fun _ _ => true) 9 ⟨1, "bob", "alice", "env1", 10, false⟩
    (by decide) (by decide) (by decide)
    _ _ _ rfl rfl
  exact ⟨h.2.2.2.1, h.2.2.2.2.2.1 (fun r _ => rfl)⟩

/-! ### Decimal representation lemmas (key distinctness for `Core`) -/

theorem toDigitsCore_eq_digitsRec :
    ∀ (fuel n : Nat) (ds : List Char), n < fuel →
      Nat.toDigitsCore 10 fuel n ds = Decimal.digitsRec n ++ ds := by
  intro fuel
  induction fuel with
  | zero =>
    intro n ds h
    omega
  | succ f ih =>
    intro n ds h
    simp only [Nat.toDigitsCore]
    by_cases h0 : n / 10 = 0
    · rw [if_pos h0]
      have hn : n < 10 := by
        by_contra hc
        push_neg at hc
        have h1 : 1 ≤ n / 10 := (Nat.one_le_div_iff (by omega)).mpr hc
        omega
      have hdig : Decimal.digitsRec n = [Nat.digitChar n] := by
        rw [Decimal.digitsRec]
        rw [dif_pos hn]
      rw [hdig, Nat.mod_eq_of_lt hn]
      rfl
    · rw [if_neg h0]
      have hpos : 0 < n := by
        by_contra hc
        push_neg at hc
        interval_cases n
        exact h0 rfl
      have hdiv : n / 10 < n := Nat.div_lt_self hpos (by omega)
      have hlt : n / 10 < f := by omega
      have h10 : ¬ n < 10 := fun hl => h0 (Nat.div_eq_of_lt hl)
      have hrhs : Decimal.digitsRec n
          = Decimal.digitsRec (n / 10) ++ [Nat.digitChar (n % 10)] := by
        rw [Decimal.digitsRec]
        rw [dif_neg h10]
      rw [ih (n / 10) _ hlt, hrhs]
      simp

theorem repr_data_eq (n : Nat) : (Nat.repr n).data = Decimal.digitsRec n := by
  show ((Nat.toDigits 10 n).asString).data = Decimal.digitsRec n
  unfold Nat.toDigits
  rw [toDigitsCore_eq_digitsRec (n + 1) n [] (by omega)]
  simp [List.asString]

theorem unrepr_append (l : List Char) (c : Char) :
    Decimal.unrepr (l ++ [c]) = 10 * Decimal.unrepr l + Decimal.charVal c := by
  unfold Decimal.unrepr
  rw [List.foldl_append]
  rfl

theorem charVal_digitChar (d : Nat) (h : d < 10) :
    Decimal.charVal (Nat.digitChar d) = d := by
  interval_cases d <;> decide

theorem digitChar_range (d : Nat) (h : d < 10) :
    48 ≤ (Nat.digitChar d).toNat ∧ (Nat.digitChar d).toNat ≤ 57 := by
  interval_cases d <;> exact (by decide)

theorem unrepr_digitsRec (n : Nat) : Decimal.unrepr (Decimal.digitsRec n) = n := by
  induction n using Nat.strong_induction_on with
  | _ n ih =>
    rw [Decimal.digitsRec]
    by_cases h : n < 10
    · rw [dif_pos h]
      have : Decimal.unrepr [Nat.digitChar n] = Decimal.charVal (Nat.digitChar n) := by
        unfold Decimal.unrepr
        simp
      rw [this, charVal_digitChar n h]
    · rw [dif_neg h]
      rw [unrepr_append]
      rw [ih (n / 10) (Nat.div_lt_self (by omega) (by omega))]
      rw [charVal_digitChar (n % 10) (Nat.mod_lt n (by omega))]
      omega

theorem repr_injective {m n : Nat} (h : Nat.repr m = Nat.repr n) : m = n := by
  have hm := repr_data_eq m
  have hn := repr_data_eq n
  rw [h] at hm
  calc m = Decimal.unrepr (Decimal.digitsRec m) := (unrepr_digitsRec m).symm
    _ = Decimal.unrepr (Decimal.digitsRec n) := by rw [← hm, ← hn]
    _ = n := unrepr_digitsRec n

theorem digitsRec_ne_nil (n : Nat) : Decimal.digitsRec n ≠ [] := by
  rw [Decimal.digitsRec]
  split <;> simp

theorem digitsRec_all_digit (n : Nat) :
    ∀ c ∈ Decimal.digitsRec n, 48 ≤ c.toNat ∧ c.toNat ≤ 57 := by
  induction n using Nat.strong_induction_on with
  | _ n ih =>
    intro c hc
    rw [Decimal.digitsRec] at hc
    by_cases h : n < 10
    · rw [dif_pos h] at hc
      simp only [List.mem_singleton] at hc
      subst hc
      exact digitChar_range n h
    · rw [dif_neg h] at hc
      rw [List.mem_append] at hc
      rcases hc with hc | hc
      · exact ih (n / 10) (Nat.div_lt_self (by omega) (by omega)) c hc
      · simp only [List.mem_singleton] at hc
        subst hc
        exact digitChar_range (n % 10) (Nat.mod_lt n (by omega))

theorem repr_data_injective {m n : Nat} (h : (Nat.repr m).data = (Nat.repr n).data) :
    m = n := by
  rw [repr_data_eq, repr_data_eq] at h
  calc m = Decimal.unrepr (Decimal.digitsRec m) := (unrepr_digitsRec m).symm
    _ = Decimal.unrepr (Decimal.digitsRec n) := by rw [h]
    _ = n := unrepr_digitsRec n

theorem repr_head_digit (n : Nat) :
    ∃ c rest, (Nat.repr n).data = c :: rest ∧ 48 ≤ c.toNat ∧ c.toNat ≤ 57 := by
  cases hdj : Decimal.digitsRec n with
  | nil => exact absurd hdj (digitsRec_ne_nil n)
  | cons c rest =>
    refine ⟨c, rest, ?_, ?_⟩
    · rw [repr_data_eq, hdj]
    · exact digitsRec_all_digit n c (by rw [hdj]; exact List.mem_cons_self _ _)

/-! ### Store-key distinctness (claims C7–C10) -/

theorem key_preKey_inj {i j : Nat} (h : Core.preKeyKey i = Core.preKeyKey j) : i = j := by
  have hd := congrArg String.data h
  simp only [Core.preKeyKey, String.data_append] at hd
  exact repr_data_injective (List.append_cancel_left hd)

theorem key_signed_inj {i j : Nat}
    (h : Core.signedPreKeyKey i = Core.signedPreKeyKey j) : i = j := by
  have hd := congrArg String.data h
  simp only [Core.signedPreKeyKey, String.data_append] at hd
  exact repr_data_injective (List.append_cancel_left hd)

theorem key_kyber_inj {i j : Nat}
    (h : Core.kyberPreKeyKey i = Core.kyberPreKeyKey j) : i = j := by
  have hd := congrArg String.data h
  simp only [Core.kyberPreKeyKey, String.data_append] at hd
  exact repr_data_injective (List.append_cancel_left hd)

theorem key_preKey_ne_counterPre (i : Nat) : Core.preKeyKey i ≠ Core.COUNTER_PREKEY := by
  intro h
  have hd := congrArg String.data h
  simp [Core.preKeyKey, Core.COUNTER_PREKEY, String.data_append] at hd

theorem key_preKey_ne_counterSigned (i : Nat) :
    Core.preKeyKey i ≠ Core.COUNTER_SIGNED_PREKEY := by
  intro h
  have hd := congrArg String.data h
  simp [Core.preKeyKey, Core.COUNTER_SIGNED_PREKEY, String.data_append] at hd

theorem key_preKey_ne_counterKyber (i : Nat) :
    Core.preKeyKey i ≠ Core.COUNTER_KYBER_PREKEY := by
  intro h
  have hd := congrArg String.data h
  simp [Core.preKeyKey, Core.COUNTER_KYBER_PREKEY, String.data_append] at hd

theorem key_preKey_ne_identity (i : Nat) : Core.preKeyKey i ≠ Core.IDENTITY_PAIR_KEY := by
  intro h
  have hd := congrArg String.data h
  simp [Core.preKeyKey, Core.IDENTITY_PAIR_KEY, String.data_append] at hd

theorem key_signed_ne_counterPre (i : Nat) :
    Core.signedPreKeyKey i ≠ Core.COUNTER_PREKEY := by
  intro h
  have hd := congrArg String.data h
  simp [Core.signedPreKeyKey, Core.COUNTER_PREKEY, String.data_append] at hd

theorem key_signed_ne_counterSigned (i : Nat) :
    Core.signedPreKeyKey i ≠ Core.COUNTER_SIGNED_PREKEY := by
  intro h
  have hd := congrArg String.data h
  simp [Core.signedPreKeyKey, Core.COUNTER_SIGNED_PREKEY, String.data_append] at hd

theorem key_signed_ne_counterKyber (i : Nat) :
    Core.signedPreKeyKey i ≠ Core.COUNTER_KYBER_PREKEY := by
  intro h
  have hd := congrArg String.data h
  simp [Core.signedPreKeyKey, Core.COUNTER_KYBER_PREKEY, String.data_append] at hd

theorem key_signed_ne_identity (i : Nat) :
    Core.signedPreKeyKey i ≠ Core.IDENTITY_PAIR_KEY := by
  intro h
  have hd := congrArg String.data h
  simp [Core.signedPreKeyKey, Core.IDENTITY_PAIR_KEY, String.data_append] at hd

theorem key_kyber_ne_counterPre (i : Nat) :
    Core.kyberPreKeyKey i ≠ Core.COUNTER_PREKEY := by
  intro h
  have hd := congrArg String.data h
  simp [Core.kyberPreKeyKey, Core.COUNTER_PREKEY, String.data_append] at hd

theorem key_kyber_ne_counterSigned (i : Nat) :
    Core.kyberPreKeyKey i ≠ Core.COUNTER_SIGNED_PREKEY := by
  intro h
  have hd := congrArg String.data h
  simp [Core.kyberPreKeyKey, Core.COUNTER_SIGNED_PREKEY, String.data_append] at hd

theorem key_kyber_ne_counterKyber (i : Nat) :
    Core.kyberPreKeyKey i ≠ Core.COUNTER_KYBER_PREKEY := by
  intro h
  have hd := congrArg String.data h
  simp [Core.kyberPreKeyKey, Core.COUNTER_KYBER_PREKEY, String.data_append] at hd

theorem key_kyber_ne_identity (i : Nat) :
    Core.kyberPreKeyKey i ≠ Core.IDENTITY_PAIR_KEY := by
  intro h
  have hd := congrArg String.data h
  simp [Core.kyberPreKeyKey, Core.IDENTITY_PAIR_KEY, String.data_append] at hd

theorem key_signed_ne_preKey (i j : Nat) :
    Core.signedPreKeyKey i ≠ Core.preKeyKey j := by
  intro h
  have hd := congrArg String.data h
  simp [Core.signedPreKeyKey, Core.preKeyKey, String.data_append] at hd

theorem key_kyber_ne_preKey (i j : Nat) :
    Core.kyberPreKeyKey i ≠ Core.preKeyKey j := by
  intro h
  have hd := congrArg String.data h
  simp [Core.kyberPreKeyKey, Core.preKeyKey, String.data_append] at hd

theorem key_kyber_ne_signed (i j : Nat) :
    Core.kyberPreKeyKey i ≠ Core.signedPreKeyKey j := by
  intro h
  have hd := congrArg String.data h
  simp [Core.kyberPreKeyKey, Core.signedPreKeyKey, String.data_append] at hd

theorem key_preKey_ne_used (i j : Nat) : Core.preKeyKey i ≠ Core.preKeyUsedKey j := by
  intro h
  have hd := congrArg String.data h
  simp only [Core.preKeyKey, Core.preKeyUsedKey, String.data_append] at hd
  simp only [List.cons_append, List.nil_append, List.cons.injEq, true_and] at hd
  obtain ⟨c, rest, hcr, h48, h57⟩ := repr_head_digit i
  rw [hcr] at hd
  injection hd with hc _
  rw [hc] at h57
  exact absurd h57 (by decide)

theorem key_session_device_inj {nm : String} {d₁ d₂ : Nat}
    (h : Core.sessionKey ⟨nm, d₁⟩ = Core.sessionKey ⟨nm, d₂⟩) : d₁ = d₂ := by
  have hd := congrArg String.data h
  simp [Core.sessionKey, Core.addressKey, String.data_append] at hd
  exact repr_data_injective hd

theorem key_session_ne_peerIdentity (a b : Core.ProtocolAddress) :
    Core.sessionKey a ≠ Core.peerIdentityKey b := by
  intro h
  have hd := congrArg String.data h
  simp [Core.sessionKey, Core.peerIdentityKey, Core.addressKey, String.data_append] at hd

/-! ### Encrypted-kv lemmas and `generatePreKeys` spec (claims C7–C9) -/

theorem kvGet_kvSet_self (kv : List (String × Core.StoreVal)) (k : String)
    (v : Core.StoreVal) : Core.kvGet (Core.kvSet kv k v) k = some v := by
  unfold Core.kvGet Core.kvSet
  exact lookup_cons_eq k v _

theorem kvGet_kvSet_ne (kv : List (String × Core.StoreVal)) (k : String)
    (v : Core.StoreVal) {k' : String} (h : k' ≠ k) :
    Core.kvGet (Core.kvSet kv k v) k' = Core.kvGet kv k' := by
  unfold Core.kvGet Core.kvSet
  rw [lookup_cons_ne _ _ h, lookup_filter_ne _ h]

theorem genOneTimeLoop_spec (ops : Core.CryptoOps) :
    ∀ (m : Nat) (st : Core.SigState) (i c : Nat),
      Core.counterValue st Core.COUNTER_PREKEY = c →
      (Core.counterValue (Core.genOneTimeLoop ops st m i) Core.COUNTER_PREKEY = c + m)
      ∧ (∀ j < m, Core.kvGet (Core.genOneTimeLoop ops st m i).kv (Core.preKeyKey (c + j))
          = some (.preKeyRec ⟨c + j, ops.pubOf (ops.genPriv (i + j)), ops.genPriv (i + j)⟩))
      ∧ (∀ k : String, k ≠ Core.COUNTER_PREKEY → (∀ j < m, k ≠ Core.preKeyKey (c + j)) →
          Core.kvGet (Core.genOneTimeLoop ops st m i).kv k = Core.kvGet st.kv k)
      ∧ (Core.genOneTimeLoop ops st m i).localId = st.localId
      ∧ (Core.genOneTimeLoop ops st m i).deviceId = st.deviceId
      ∧ (Core.genOneTimeLoop ops st m i).registrationId = st.registrationId
      ∧ (0 < m → Core.kvGet (Core.genOneTimeLoop ops st m i).kv Core.COUNTER_PREKEY
          = some (.num (c + m))) := by
  intro m
  induction m with
  | zero =>
    intro st i c hc
    refine ⟨by simpa using hc, ?_, fun k _ _ => rfl, rfl, rfl, rfl, fun h => absurd h (by omega)⟩
    intro j hj
    omega
  | succ n ih =>
    intro st i c hc
    have hstep1 : (Core.nextCounter st Core.COUNTER_PREKEY).2 = c := by
      simp [Core.nextCounter, hc]
    have hstep0 : (Core.nextCounter st Core.COUNTER_PREKEY).1
        = { st with kv := Core.kvSet st.kv Core.COUNTER_PREKEY (.num (c + 1)) } := by
      simp [Core.nextCounter, hc]
    have hunfold : Core.genOneTimeLoop ops st (n + 1) i
        = Core.genOneTimeLoop ops
            (Core.savePreKey
              { st with kv := Core.kvSet st.kv Core.COUNTER_PREKEY (.num (c + 1)) } c
              ⟨c, ops.pubOf (ops.genPriv i), ops.genPriv i⟩) n (i + 1) := by
      simp only [Core.genOneTimeLoop]
      rw [hstep0, hstep1]
    have hcb : Core.counterValue
        (Core.savePreKey
          { st with kv := Core.kvSet st.kv Core.COUNTER_PREKEY (.num (c + 1)) } c
          ⟨c, ops.pubOf (ops.genPriv i), ops.genPriv i⟩) Core.COUNTER_PREKEY = c + 1 := by
      unfold Core.counterValue Core.savePreKey
      rw [kvGet_kvSet_ne _ _ _ (Ne.symm (key_preKey_ne_counterPre c))]
      rw [kvGet_kvSet_self]
    obtain ⟨ihc, ihrec, ihframe, ihl, ihd, ihr, ihcp⟩ := ih _ (i + 1) (c + 1) hcb
    rw [hunfold]
    refine ⟨?_, ?_, ?_, ?_, ?_, ?_, ?_⟩
    · rw [ihc]
      omega
    · intro j hj
      match j with
      | 0 =>
        rw [ihframe (Core.preKeyKey (c + 0)) ?_ ?_]
        · unfold Core.savePreKey
          simp only
          have e : c + 0 = c := by omega
          rw [e, kvGet_kvSet_self]
          have e2 : i + 0 = i := by omega
          rw [e2]
        · have e : c + 0 = c := by omega
          rw [e]
          exact key_preKey_ne_counterPre c
        · intro j' hj' heq
          have := key_preKey_inj heq
          omega
      | Nat.succ j' =>
        have e : c + (j' + 1) = c + 1 + j' := by omega
        have e2 : i + (j' + 1) = i + 1 + j' := by omega
        rw [e, e2]
        exact ihrec j' (by omega)
    · intro k hk1 hk2
      rw [ihframe k hk1 ?_]
      · unfold Core.savePreKey
        simp only
        rw [kvGet_kvSet_ne _ _ _ (by simpa using hk2 0 (by omega))]
        rw [kvGet_kvSet_ne _ _ _ hk1]
      · intro j' hj'
        have e : c + 1 + j' = c + (j' + 1) := by omega
        rw [e]
        exact hk2 (j' + 1) (by omega)
    · rw [ihl]
      rfl
    · rw [ihd]
      rfl
    · rw [ihr]
      rfl
    · intro _
      cases n with
      | zero =>
        show Core.kvGet
            (Core.savePreKey
              { st with kv := Core.kvSet st.kv Core.COUNTER_PREKEY (.num (c + 1)) } c
              ⟨c, ops.pubOf (ops.genPriv i), ops.genPriv i⟩).kv Core.COUNTER_PREKEY
          = some (.num (c + 1))
        unfold Core.savePreKey
        simp only
        rw [kvGet_kvSet_ne _ _ _ (Ne.symm (key_preKey_ne_counterPre c))]
        rw [kvGet_kvSet_self]
      | succ n' =>
        have hcp := ihcp (by omega)
        have e : c + 1 + (n' + 1) = c + (n' + 1 + 1) := by omega
        rw [e] at hcp
        exact hcp

theorem counterValue_congr {st₁ st₂ : Core.SigState} (key : String) (start : Nat)
    (h : Core.kvGet st₁.kv key = Core.kvGet st₂.kv key) :
    Core.counterValue st₁ key start = Core.counterValue st₂ key start := by
  unfold Core.counterValue
  rw [h]

theorem generatePreKeys_spec (ops : Core.CryptoOps) (now : Nat) (st : Core.SigState)
    (count : Nat) (ipriv ipub : Nat)
    (hId : Core.kvGet st.kv Core.IDENTITY_PAIR_KEY = some (.idPair ipriv ipub))
    (c s kc : Nat)
    (hc : c = Core.counterValue st Core.COUNTER_PREKEY)
    (hs : s = Core.counterValue st Core.COUNTER_SIGNED_PREKEY)
    (hkc : kc = Core.counterValue st Core.COUNTER_KYBER_PREKEY) :
    ∃ stF, Core.generatePreKeys ops now st count = .ok stF
      ∧ (∀ j < count, Core.kvGet stF.kv (Core.preKeyKey (c + j))
          = some (.preKeyRec ⟨c + j, ops.pubOf (ops.genPriv j), ops.genPriv j⟩))
      ∧ (0 < count → Core.kvGet stF.kv Core.COUNTER_PREKEY = some (.num (c + count)))
      ∧ Core.kvGet stF.kv (Core.signedPreKeyKey s)
          = some (.signedPreKeyRec ⟨s, now, ops.pubOf (ops.genPriv count),
              ops.genPriv count,
              ops.sign ipriv (ops.serializePub (ops.pubOf (ops.genPriv count)))⟩)
      ∧ Core.kvGet stF.kv Core.COUNTER_SIGNED_PREKEY = some (.num (s + 1))
      ∧ Core.kvGet stF.kv (Core.kyberPreKeyKey kc)
          = some (.kyberPreKeyRec ⟨kc, now, ops.genKem,
              ops.sign ipriv (ops.serializeKem (ops.kemPubOf ops.genKem))⟩)
      ∧ Core.kvGet stF.kv Core.COUNTER_KYBER_PREKEY = some (.num (kc + 1))
      ∧ (∀ k : String, k ≠ Core.COUNTER_PREKEY → k ≠ Core.COUNTER_SIGNED_PREKEY →
          k ≠ Core.COUNTER_KYBER_PREKEY → k ≠ Core.signedPreKeyKey s →
          k ≠ Core.kyberPreKeyKey kc → (∀ j < count, k ≠ Core.preKeyKey (c + j)) →
          Core.kvGet stF.kv k = Core.kvGet st.kv k)
      ∧ stF.localId = st.localId ∧ stF.deviceId = st.deviceId
      ∧ stF.registrationId = st.registrationId := by
  obtain ⟨lc, lrec, lframe, ll, ld, lr, lcp⟩ := genOneTimeLoop_spec ops count st 0 c hc.symm
  have hIdv : Core.getIdentityKeyPair st = .ok (ipriv, ipub) := by
    unfold Core.getIdentityKeyPair
    rw [hId]
  set stA := Core.genOneTimeLoop ops st count 0 with hstA
  have hsA : Core.counterValue stA Core.COUNTER_SIGNED_PREKEY = s := by
    rw [counterValue_congr Core.COUNTER_SIGNED_PREKEY 1
      (lframe Core.COUNTER_SIGNED_PREKEY (by decide)
        (fun j _ => Ne.symm (key_preKey_ne_counterSigned (c + j))))]
    exact hs.symm
  have hnc1 : (Core.nextCounter stA Core.COUNTER_SIGNED_PREKEY).2 = s := by
    simp [Core.nextCounter, hsA]
  have hnc0 : (Core.nextCounter stA Core.COUNTER_SIGNED_PREKEY).1
      = { stA with kv := Core.kvSet stA.kv Core.COUNTER_SIGNED_PREKEY (.num (s + 1)) } := by
    simp [Core.nextCounter, hsA]
  set stB : Core.SigState :=
    { stA with kv := Core.kvSet stA.kv Core.COUNTER_SIGNED_PREKEY (.num (s + 1)) } with hstB
  set spk : Core.SignedPreKeyRec :=
    ⟨s, now, ops.pubOf (ops.genPriv count), ops.genPriv count,
      ops.sign ipriv (ops.serializePub (ops.pubOf (ops.genPriv count)))⟩ with hspk
  set stC := Core.saveSignedPreKey stB s spk with hstC
  have hkvC : stC.kv = Core.kvSet stB.kv (Core.signedPreKeyKey s) (.signedPreKeyRec spk) := by
    rw [hstC]
    rfl
  have hkcC : Core.counterValue stC Core.COUNTER_KYBER_PREKEY = kc := by
    have h1 : Core.kvGet stC.kv Core.COUNTER_KYBER_PREKEY
        = Core.kvGet st.kv Core.COUNTER_KYBER_PREKEY := by
      rw [hkvC]
      rw [kvGet_kvSet_ne _ _ _ (Ne.symm (key_signed_ne_counterKyber s))]
      rw [hstB]
      show Core.kvGet (Core.kvSet stA.kv Core.COUNTER_SIGNED_PREKEY (.num (s + 1)))
          Core.COUNTER_KYBER_PREKEY = _
      rw [kvGet_kvSet_ne _ _ _ (by decide)]
      exact lframe Core.COUNTER_KYBER_PREKEY (by decide)
        (fun j _ => Ne.symm (key_preKey_ne_counterKyber (c + j)))
    rw [counterValue_congr Core.COUNTER_KYBER_PREKEY 1 h1]
    exact hkc.symm
  have hnc3 : (Core.nextCounter stC Core.COUNTER_KYBER_PREKEY).2 = kc := by
    simp [Core.nextCounter, hkcC]
  have hnc2 : (Core.nextCounter stC Core.COUNTER_KYBER_PREKEY).1
      = { stC with kv := Core.kvSet stC.kv Core.COUNTER_KYBER_PREKEY (.num (kc + 1)) } := by
    simp [Core.nextCounter, hkcC]
  set stD : Core.SigState :=
    { stC with kv := Core.kvSet stC.kv Core.COUNTER_KYBER_PREKEY (.num (kc + 1)) } with hstD
  set krec : Core.KyberPreKeyRec :=
    ⟨kc, now, ops.genKem, ops.sign ipriv (ops.serializeKem (ops.kemPubOf ops.genKem))⟩ with hkrec
  have hkvF : (Core.saveKyberPreKey stD kc krec).kv
      = Core.kvSet stD.kv (Core.kyberPreKeyKey kc) (.kyberPreKeyRec krec) := rfl
  have hkvD : stD.kv = Core.kvSet stC.kv Core.COUNTER_KYBER_PREKEY (.num (kc + 1)) := by
    rw [hstD]
  have hkvB : stB.kv = Core.kvSet stA.kv Core.COUNTER_SIGNED_PREKEY (.num (s + 1)) := by
    rw [hstB]
  refine ⟨Core.saveKyberPreKey stD kc krec, ?_, ?_, ?_, ?_, ?_, ?_, ?_, ?_, ?_, ?_, ?_⟩
  · simp only [Core.generatePreKeys, hIdv]
    rw [hnc0, hnc1]
    rw [← hspk, ← hstC]
    rw [hnc2, hnc3]
  · intro j hj
    rw [hkvF, kvGet_kvSet_ne _ _ _ (Ne.symm (key_kyber_ne_preKey kc (c + j)))]
    rw [hkvD, kvGet_kvSet_ne _ _ _ (key_preKey_ne_counterKyber (c + j))]
    rw [hkvC, kvGet_kvSet_ne _ _ _ (Ne.symm (key_signed_ne_preKey s (c + j)))]
    rw [hkvB, kvGet_kvSet_ne _ _ _ (key_preKey_ne_counterSigned (c + j))]
    have hr := lrec j hj
    simpa using hr
  · intro hcount
    rw [hkvF, kvGet_kvSet_ne _ _ _ (Ne.symm (key_kyber_ne_counterPre kc))]
    rw [hkvD, kvGet_kvSet_ne _ _ _ (by decide)]
    rw [hkvC, kvGet_kvSet_ne _ _ _ (Ne.symm (key_signed_ne_counterPre s))]
    rw [hkvB, kvGet_kvSet_ne _ _ _ (by decide)]
    exact lcp hcount
  · rw [hkvF, kvGet_kvSet_ne _ _ _ (key_kyber_ne_signed kc s |> fun h => Ne.symm (Ne.symm h) |> Ne.symm)]
    rw [hkvD, kvGet_kvSet_ne _ _ _ (key_signed_ne_counterKyber s)]
    rw [hkvC, kvGet_kvSet_self]
  · rw [hkvF, kvGet_kvSet_ne _ _ _ (Ne.symm (key_kyber_ne_counterSigned kc))]
    rw [hkvD, kvGet_kvSet_ne _ _ _ (by decide)]
    rw [hkvC, kvGet_kvSet_ne _ _ _ (Ne.symm (key_signed_ne_counterSigned s))]
    rw [hkvB, kvGet_kvSet_self]
  · rw [hkvF, kvGet_kvSet_self]
  · rw [hkvF, kvGet_kvSet_ne _ _ _ (Ne.symm (key_kyber_ne_counterKyber kc))]
    rw [hkvD, kvGet_kvSet_self]
  · intro k hk1 hk2 hk3 hk4 hk5 hk6
    rw [hkvF, kvGet_kvSet_ne _ _ _ hk5]
    rw [hkvD, kvGet_kvSet_ne _ _ _ hk3]
    rw [hkvC, kvGet_kvSet_ne _ _ _ hk4]
    rw [hkvB, kvGet_kvSet_ne _ _ _ hk2]
    exact lframe k hk1 (fun j hj => hk6 j hj)
  · show stD.localId = st.localId
    rw [hstD]
    show stC.localId = st.localId
    rw [hstC]
    show stB.localId = st.localId
    rw [hstB]
    exact ll
  · show stD.deviceId = st.deviceId
    rw [hstD]
    show stC.deviceId = st.deviceId
    rw [hstC]
    show stB.deviceId = st.deviceId
    rw [hstB]
    exact ld
  · show stD.registrationId = st.registrationId
    rw [hstD]
    show stC.registrationId = st.registrationId
    rw [hstC]
    show stB.registrationId = st.registrationId
    rw [hstB]
    exact lr

/-- C7: for `count ≥ 1`, `generatePreKeys(count)` on a store holding an
identity key pair allocates exactly `count` one-time prekeys at the strictly
increasing ids `c, c+1, …, c+count−1` continuing the persisted counter `c`
(prekeys outside that id range are untouched), exactly one signed prekey at
the persisted signed counter whose signature is `sign(identityPriv,
serialize(signedPub))`, and exactly one kyber prekey also signed by the
identity private key, advancing each category's counter. -/
theorem generate_prekeys_counts_and_signatures
    (ops : Core.CryptoOps) (now : Nat) (st : Core.SigState) (count ipriv ipub : Nat)
    (hId : Core.kvGet st.kv Core.IDENTITY_PAIR_KEY = some (.idPair ipriv ipub))
    (hCount : 0 < count) :
    ∀ c s kc,
      c = Core.counterValue st Core.COUNTER_PREKEY →
      s = Core.counterValue st Core.COUNTER_SIGNED_PREKEY →
      kc = Core.counterValue st Core.COUNTER_KYBER_PREKEY →
      ∃ stF, Core.generatePreKeys ops now st count = .ok stF
        ∧ (∀ j < count, Core.getPreKey stF (c + j)
            = .ok ⟨c + j, ops.pubOf (ops.genPriv j), ops.genPriv j⟩)
        ∧ Core.kvGet stF.kv Core.COUNTER_PREKEY = some (.num (c + count))
        ∧ (∀ m, m < c ∨ c + count ≤ m → Core.getPreKey stF m = Core.getPreKey st m)
        ∧ Core.getSignedPreKey stF s
            = .ok ⟨s, now, ops.pubOf (ops.genPriv count), ops.genPriv count,
                ops.sign ipriv (ops.serializePub (ops.pubOf (ops.genPriv count)))⟩
        ∧ Core.kvGet stF.kv Core.COUNTER_SIGNED_PREKEY = some (.num (s + 1))
        ∧ (∀ m, m ≠ s → Core.getSignedPreKey stF m = Core.getSignedPreKey st m)
        ∧ Core.getKyberPreKey stF kc
            = .ok ⟨kc, now, ops.genKem,
                ops.sign ipriv (ops.serializeKem (ops.kemPubOf ops.genKem))⟩
        ∧ Core.kvGet stF.kv Core.COUNTER_KYBER_PREKEY = some (.num (kc + 1))
        ∧ (∀ m, m ≠ kc → Core.getKyberPreKey stF m = Core.getKyberPreKey st m) := by
  intro c s kc hc hs hkc
  obtain ⟨stF, hgen, hrec, hcp, hsrec, hcs, hkrec, hck, hframe, _, _, _⟩ :=
    generatePreKeys_spec ops now st count ipriv ipub hId c s kc hc hs hkc
  refine ⟨stF, hgen, ?_, hcp hCount, ?_, ?_, hcs, ?_, ?_, hck, ?_⟩
  · intro j hj
    unfold Core.getPreKey
    rw [hrec j hj]
  · intro m hm
    unfold Core.getPreKey
    rw [hframe (Core.preKeyKey m) (key_preKey_ne_counterPre m)
      (key_preKey_ne_counterSigned m) (key_preKey_ne_counterKyber m)
      (Ne.symm (key_signed_ne_preKey s m)) (Ne.symm (key_kyber_ne_preKey kc m))
      (fun j hj heq => by
        have := key_preKey_inj heq
        omega)]
  · unfold Core.getSignedPreKey
    rw [hsrec]
  · intro m hm
    unfold Core.getSignedPreKey
    rw [hframe (Core.signedPreKeyKey m) (key_signed_ne_counterPre m)
      (key_signed_ne_counterSigned m) (key_signed_ne_counterKyber m)
      (fun heq => hm (key_signed_inj heq))
      (Ne.symm (key_kyber_ne_signed kc m))
      (fun j hj => key_signed_ne_preKey m (c + j))]
  · unfold Core.getKyberPreKey
    rw [hkrec]
  · intro m hm
    unfold Core.getKyberPreKey
    rw [hframe (Core.kyberPreKeyKey m) (key_kyber_ne_counterPre m)
      (key_kyber_ne_counterSigned m) (key_kyber_ne_counterKyber m)
      (key_kyber_ne_signed m s)
      (fun heq => hm (key_kyber_inj heq))
      (fun j hj => key_kyber_ne_preKey m (c + j))]

/-- Witness for C7 at a concrete store and capability instance. -/
theorem generate_prekeys_counts_and_signatures_witness :
    ∃ stF, Core.generatePreKeys
        ⟨fun i => 100 + i, fun p => p + 1, fun p => p + 2, fun k m => k + m,
          55, fun k => k + 3, fun k => k + 4⟩ 5
        ⟨[(Core.IDENTITY_PAIR_KEY, .idPair 7 8)], some "alice", some 1, some 42⟩ 2
        = .ok stF
      ∧ Core.getPreKey stF 1 = .ok ⟨1, 101, 100⟩
      ∧ Core.getPreKey stF 2 = .ok ⟨2, 102, 101⟩
      ∧ Core.getSignedPreKey stF 1 = .ok ⟨1, 5, 103, 102, 112⟩
      ∧ Core.getKyberPreKey stF 1 = .ok ⟨1, 5, 55, 69⟩ := by
  obtain ⟨stF, h1, h2, h3, h4, h5, h6, h7, h8, h9, h10⟩ :=
    generate_prekeys_counts_and_signatures
      ⟨fun i => 100 + i, fun p => p + 1, fun p => p + 2, fun k m => k + m,
        55, fun k => k + 3, fun k => k + 4⟩ 5
      ⟨[(Core.IDENTITY_PAIR_KEY, .idPair 7 8)], some "alice", some 1, some 42⟩ 2 7 8
      (by decide) (by omega) _ _ _ rfl rfl rfl
  exact ⟨stF, h1, h2 0 (by omega), h2 1 (by omega), h5, h8⟩

/-- C9: `removePreKey(id)` does not delete the stored prekey record — every
`prekey:{j}` slot (including `j = id`) is untouched, `getPreKey` still
returns the same result — and the only write is the separate used-marker
entry `prekey:used:{id}`. -/
theorem remove_prekey_retains_record (st : Core.SigState) (i j now : Nat) :
    Core.kvGet (Core.removePreKey st i now).kv (Core.preKeyKey j)
      = Core.kvGet st.kv (Core.preKeyKey j)
    ∧ Core.getPreKey (Core.removePreKey st i now) j = Core.getPreKey st j
    ∧ Core.kvGet (Core.removePreKey st i now).kv (Core.preKeyUsedKey i)
      = some (.usedMark now) := by
  have hne : Core.preKeyKey j ≠ Core.preKeyUsedKey i := key_preKey_ne_used j i
  refine ⟨?_, ?_, ?_⟩
  · unfold Core.removePreKey
    exact kvGet_kvSet_ne _ _ _ hne
  · unfold Core.getPreKey
    rw [show (Core.removePreKey st i now).kv
        = Core.kvSet st.kv (Core.preKeyUsedKey i) (.usedMark now) from rfl]
    rw [kvGet_kvSet_ne _ _ _ hne]
  · unfold Core.removePreKey
    exact kvGet_kvSet_self _ _ _

/-- C8: `exportBundle` fails with an error whenever the local identity is
uninitialized (no local id or no registration id), and after a
`generatePreKeys(count)` call it returns the bundle holding the records
with the latest issued id in each category (`counter − 1`, the ids most
recently allocated) together with the identity public key, registration id
and device id. -/
theorem export_bundle_latest_ids
    (ops : Core.CryptoOps) (now : Nat) (st : Core.SigState)
    (count ipriv ipub regId : Nat) (localId : String)
    (hId : Core.kvGet st.kv Core.IDENTITY_PAIR_KEY = some (.idPair ipriv ipub))
    (hL : st.localId = some localId)
    (hR : st.registrationId = some regId)
    (hCount : 0 < count) :
    (∀ st' : Core.SigState, st'.localId = none ∨ st'.registrationId = none →
      ∃ e, Core.exportBundle ops st' = .error e)
    ∧ ∀ c s kc,
        c = Core.counterValue st Core.COUNTER_PREKEY →
        s = Core.counterValue st Core.COUNTER_SIGNED_PREKEY →
        kc = Core.counterValue st Core.COUNTER_KYBER_PREKEY →
        ∃ stF, Core.generatePreKeys ops now st count = .ok stF
          ∧ Core.exportBundle ops stF = .ok
              { id := localId
                deviceId := st.deviceId.getD 1
                registrationId := regId
                identityKey := ops.serializePub ipub
                signedPreKeyId := s
                signedPreKeyPublic := ops.serializePub (ops.pubOf (ops.genPriv count))
                signedPreKeySignature :=
                  ops.sign ipriv (ops.serializePub (ops.pubOf (ops.genPriv count)))
                preKeyId := c + count - 1
                preKeyPublic := ops.serializePub (ops.pubOf (ops.genPriv (count - 1)))
                kyberPreKeyId := kc
                kyberPreKeyPublic := ops.serializeKem (ops.kemPubOf ops.genKem)
                kyberPreKeySignature :=
                  ops.sign ipriv (ops.serializeKem (ops.kemPubOf ops.genKem)) } := by
  constructor
  · intro st' h
    cases hgi : Core.getIdentityKeyPair st' with
    | error e =>
      refine ⟨e, ?_⟩
      simp [Core.exportBundle, hgi]
    | ok idp =>
      refine ⟨.identityNotSet, ?_⟩
      cases hl2 : st'.localId with
      | none => simp [Core.exportBundle, hgi, hl2]
      | some l =>
        rcases h with h | h
        · rw [hl2] at h
          exact absurd h (by simp)
        · simp [Core.exportBundle, hgi, hl2, h]
  · intro c s kc hc hs hkc
    obtain ⟨stF, hgen, hrec, hcp, hsrec, hcs, hkrec, hck, hframe, hl, hd, hr⟩ :=
      generatePreKeys_spec ops now st count ipriv ipub hId c s kc hc hs hkc
    refine ⟨stF, hgen, ?_⟩
    have hIdF : Core.kvGet stF.kv Core.IDENTITY_PAIR_KEY = some (.idPair ipriv ipub) := by
      rw [hframe Core.IDENTITY_PAIR_KEY (by decide) (by decide) (by decide)
        (Ne.symm (key_signed_ne_identity s)) (Ne.symm (key_kyber_ne_identity kc))
        (fun j _ => Ne.symm (key_preKey_ne_identity (c + j)))]
      exact hId
    have hgiF : Core.getIdentityKeyPair stF = .ok (ipriv, ipub) := by
      unfold Core.getIdentityKeyPair
      rw [hIdF]
    have hcpF : Core.counterValue stF Core.COUNTER_PREKEY 2 = c + count := by
      unfold Core.counterValue
      rw [hcp hCount]
    have hcsF : Core.counterValue stF Core.COUNTER_SIGNED_PREKEY 2 = s + 1 := by
      unfold Core.counterValue
      rw [hcs]
    have hckF : Core.counterValue stF Core.COUNTER_KYBER_PREKEY 2 = kc + 1 := by
      unfold Core.counterValue
      rw [hck]
    have hgp : Core.getPreKey stF (c + count - 1)
        = .ok ⟨c + (count - 1), ops.pubOf (ops.genPriv (count - 1)),
            ops.genPriv (count - 1)⟩ := by
      unfold Core.getPreKey
      rw [show c + count - 1 = c + (count - 1) from by omega]
      rw [hrec (count - 1) (by omega)]
    have hgs : Core.getSignedPreKey stF s
        = .ok ⟨s, now, ops.pubOf (ops.genPriv count), ops.genPriv count,
            ops.sign ipriv (ops.serializePub (ops.pubOf (ops.genPriv count)))⟩ := by
      unfold Core.getSignedPreKey
      rw [hsrec]
    have hgk : Core.getKyberPreKey stF kc
        = .ok ⟨kc, now, ops.genKem,
            ops.sign ipriv (ops.serializeKem (ops.kemPubOf ops.genKem))⟩ := by
      unfold Core.getKyberPreKey
      rw [hkrec]
    have hlF : stF.localId = some localId := by rw [hl, hL]
    have hrF : stF.registrationId = some regId := by rw [hr, hR]
    simp only [Core.exportBundle, hgiF, hlF, hrF, hcpF, hcsF, hckF,
      Nat.add_sub_cancel, hgs, hgk, hd]
    rw [hgp]

/-- Witness for C8: the uninitialized store errors; after a concrete
`generatePreKeys(2)` the exported bundle carries the latest ids. -/
theorem export_bundle_latest_ids_witness :
    (∃ e, Core.exportBundle
        ⟨fun i => 100 + i, fun p => p + 1, fun p => p + 2, fun k m => k + m,
          55, fun k => k + 3, fun k => k + 4⟩
        ⟨[], none, none, none⟩ = .error e)
    ∧ ∃ stF, Core.generatePreKeys
          ⟨fun i => 100 + i, fun p => p + 1, fun p => p + 2, fun k m => k + m,
            55, fun k => k + 3, fun k => k + 4⟩ 5
          ⟨[(Core.IDENTITY_PAIR_KEY, .idPair 7 8)], some "alice", some 1, some 42⟩ 2
          = .ok stF
        ∧ Core.exportBundle
            ⟨fun i => 100 + i, fun p => p + 1, fun p => p + 2, fun k m => k + m,
              55, fun k => k + 3, fun k => k + 4⟩ stF
          = .ok ⟨"alice", 1, 42, 10, 1, 105, 112, 2, 104, 1, 62, 69⟩ := by
  have h := export_bundle_latest_ids
    ⟨fun i => 100 + i, fun p => p + 1, fun p => p + 2, fun k m => k + m,
      55, fun k => k + 3, fun k => k + 4⟩ 5
    ⟨[(Core.IDENTITY_PAIR_KEY, .idPair 7 8)], some "alice", some 1, some 42⟩
    2 7 8 42 "alice" (by decide) rfl rfl (by omega)
  exact ⟨h.1 ⟨[], none, none, none⟩ (Or.inl rfl), h.2 _ _ _ rfl rfl rfl⟩

/-- C10 (implicit): `encryptMessage` always encrypts to
`ProtocolAddress(recipientId, 1)` and `decryptMessage` always consults the
session for `ProtocolAddress(senderId, 1)`, while `initSession` establishes
the session under `ProtocolAddress(bundle.id, bundle.deviceId)`; hence a
session established from a bundle whose deviceId differs from 1 is stored
under the (id, deviceId) key, leaves the device-1 slot untouched, and makes
no difference to encryption or decryption for that peer. -/
theorem peer_device_id_pinned_to_one
    (extEncrypt : Option Core.StoreVal → String → Nat × Nat)
    (extDecryptPreKey extDecrypt : Option Core.StoreVal → Nat → String)
    (now : Nat) (st : Core.SigState) (bundle : Core.ModelBundle) (tok : Nat)
    (plaintext : String) (envelope : Core.EnvelopeM)
    (hD : bundle.deviceId ≠ 1)
    (hSender : envelope.senderId = bundle.id) :
    Core.kvGet (Core.initSession tok st bundle).kv
        (Core.sessionKey ⟨bundle.id, bundle.deviceId⟩) = some (.sessionRec tok)
    ∧ Core.kvGet (Core.initSession tok st bundle).kv (Core.sessionKey ⟨bundle.id, 1⟩)
        = Core.kvGet st.kv (Core.sessionKey ⟨bundle.id, 1⟩)
    ∧ Core.encryptMessage extEncrypt now (Core.initSession tok st bundle) bundle.id
        plaintext
        = Core.encryptMessage extEncrypt now st bundle.id plaintext
    ∧ Core.decryptMessage extDecryptPreKey extDecrypt (Core.initSession tok st bundle)
        envelope
        = Core.decryptMessage extDecryptPreKey extDecrypt st envelope := by
  have hkv : (Core.initSession tok st bundle).kv
      = Core.kvSet
          (Core.kvSet st.kv (Core.peerIdentityKey ⟨bundle.id, bundle.deviceId⟩)
            (.identityPub bundle.identityKey))
          (Core.sessionKey ⟨bundle.id, bundle.deviceId⟩) (.sessionRec tok) := rfl
  have hne1 : Core.sessionKey ⟨bundle.id, 1⟩
      ≠ Core.sessionKey ⟨bundle.id, bundle.deviceId⟩ :=
    fun h => hD (key_session_device_inj h).symm
  have hsess : Core.kvGet (Core.initSession tok st bundle).kv
      (Core.sessionKey ⟨bundle.id, 1⟩)
      = Core.kvGet st.kv (Core.sessionKey ⟨bundle.id, 1⟩) := by
    rw [hkv]
    rw [kvGet_kvSet_ne _ _ _ hne1]
    rw [kvGet_kvSet_ne _ _ _
      (key_session_ne_peerIdentity ⟨bundle.id, 1⟩ ⟨bundle.id, bundle.deviceId⟩)]
  refine ⟨?_, hsess, ?_, ?_⟩
  · rw [hkv]
    exact kvGet_kvSet_self _ _ _
  · simp only [Core.encryptMessage]
    rw [hsess]
    rfl
  · simp only [Core.decryptMessage]
    rw [hSender, hsess]

/-- Witness for C10 with a deviceId-2 bundle. -/
theorem peer_device_id_pinned_to_one_witness :
    Core.kvGet (Core.initSession 77 ⟨[], some "alice", some 1, some 7⟩
        ⟨"bob", 2, 42, 9, 1, 2, 3, 1, 4, 1, 5, 6⟩).kv
        (Core.sessionKey ⟨"bob", 2⟩) = some (.sessionRec 77)
    ∧ Core.kvGet (Core.initSession 77 ⟨[], some "alice", some 1, some 7⟩
        ⟨"bob", 2, 42, 9, 1, 2, 3, 1, 4, 1, 5, 6⟩).kv (Core.sessionKey ⟨"bob", 1⟩)
      = Core.kvGet (Core.SigState.mk [] (some "alice") (some 1) (some 7)).kv
          (Core.sessionKey ⟨"bob", 1⟩)
    ∧ Core.encryptMessage (fun _ _ => (2, 99)) 5
        (Core.initSession 77 ⟨[], some "alice", some 1, some 7⟩
          ⟨"bob", 2, 42, 9, 1, 2, 3, 1, 4, 1, 5, 6⟩) "bob" "hi"
      = Core.encryptMessage (fun _ _ => (2, 99)) 5
          ⟨[], some "alice", some 1, some 7⟩ "bob" "hi"
    ∧ Core.decryptMessage (fun _ _ => "pt") (fun _ _ => "pt")
        (Core.initSession 77 ⟨[], some "alice", some 1, some 7⟩
          ⟨"bob", 2, 42, 9, 1, 2, 3, 1, 4, 1, 5, 6⟩)
        ⟨1, "bob", "alice", "bob::alice", 2, 99, 5⟩
      = Core.decryptMessage (fun _ _ => "pt") (fun _ _ => "pt")
          ⟨[], some "alice", some 1, some 7⟩ ⟨1, "bob", "alice", "bob::alice", 2, 99, 5⟩ :=
  peer_device_id_pinned_to_one (fun _ _ => (2, 99)) (fun _ _ => "pt") (fun _ _ => "pt")
    5 ⟨[], some "alice", some 1, some 7⟩ ⟨"bob", 2, 42, 9, 1, 2, 3, 1, 4, 1, 5, 6⟩ 77
    "hi" ⟨1, "bob", "alice", "bob::alice", 2, 99, 5⟩ (by decide) rfl

/-! ### Encrypted record store (claims C5 and C6) -/

mutual

theorem decode_encode_val (b64e : List SCrypto.Byte → String)
    (b64d : String → List SCrypto.Byte) (hB64 : ∀ bs, b64d (b64e bs) = bs) :
    ∀ v : SCrypto.JValue, SCrypto.noReservedTag v = true →
      SCrypto.decodeValue b64d (SCrypto.encodeValue b64e v) = some v
  | .jnull, _ => by simp [SCrypto.encodeValue, SCrypto.decodeValue]
  | .jbool b, _ => by simp [SCrypto.encodeValue, SCrypto.decodeValue]
  | .jnum n, _ => by simp [SCrypto.encodeValue, SCrypto.decodeValue]
  | .jstr s, _ => by simp [SCrypto.encodeValue, SCrypto.decodeValue]
  | .jbin bytes, _ => by
    simp [SCrypto.encodeValue, SCrypto.decodeValue, SCrypto.decodeObj,
      SCrypto.JObj.lookupField, hB64]
  | .jarr its, h => by
    have hh : SCrypto.noReservedTagArr its = true := by
      simpa [SCrypto.noReservedTag] using h
    have hr := decode_encode_arr b64e b64d hB64 its hh
    simp [SCrypto.encodeValue, SCrypto.decodeValue, hr]
  | .jobj fs, h => by
    have hh : SCrypto.noReservedTagObj fs = true := by
      simp only [SCrypto.noReservedTag, Bool.and_eq_true] at h
      exact h.2
    have hr := decode_encode_obj b64e b64d hB64 fs hh
    simp only [SCrypto.encodeValue, SCrypto.decodeValue, hr]
    cases hty : fs.lookupField "__type" with
    | none => simp [hty]
    | some w =>
      cases w with
      | jstr s' =>
        have hne : s' ≠ "ab" := by
          simp only [SCrypto.noReservedTag, Bool.and_eq_true, hty] at h
          simpa using h.1
        simp [hty, hne]
      | jnull => simp [hty]
      | jbool b => simp [hty]
      | jnum n => simp [hty]
      | jbin bytes => simp [hty]
      | jarr its => simp [hty]
      | jobj fs2 => simp [hty]

theorem decode_encode_arr (b64e : List SCrypto.Byte → String)
    (b64d : String → List SCrypto.Byte) (hB64 : ∀ bs, b64d (b64e bs) = bs) :
    ∀ a : SCrypto.JArr, SCrypto.noReservedTagArr a = true →
      SCrypto.decodeArr b64d (SCrypto.encodeArr b64e a) = some a
  | .nil, _ => by simp [SCrypto.encodeArr, SCrypto.decodeArr]
  | .cons hd tl, h => by
    have h1 : SCrypto.noReservedTag hd = true ∧ SCrypto.noReservedTagArr tl = true := by
      simpa [SCrypto.noReservedTagArr, Bool.and_eq_true] using h
    have r1 := decode_encode_val b64e b64d hB64 hd h1.1
    have r2 := decode_encode_arr b64e b64d hB64 tl h1.2
    simp [SCrypto.encodeArr, SCrypto.decodeArr, r1, r2]

theorem decode_encode_obj (b64e : List SCrypto.Byte → String)
    (b64d : String → List SCrypto.Byte) (hB64 : ∀ bs, b64d (b64e bs) = bs) :
    ∀ o : SCrypto.JObj, SCrypto.noReservedTagObj o = true →
      SCrypto.decodeObj b64d (SCrypto.encodeObj b64e o) = some o
  | .nil, _ => by simp [SCrypto.encodeObj, SCrypto.decodeObj]
  | .cons k v tl, h => by
    have h1 : SCrypto.noReservedTag v = true ∧ SCrypto.noReservedTagObj tl = true := by
      simpa [SCrypto.noReservedTagObj, Bool.and_eq_true] using h
    have r1 := decode_encode_val b64e b64d hB64 v h1.1
    have r2 := decode_encode_obj b64e b64d hB64 tl h1.2
    simp [SCrypto.encodeObj, SCrypto.decodeObj, r1, r2]

end

theorem char_toNat_ofNat {n : Nat} (h : n < 55296) : (Char.ofNat n).toNat = n := by
  unfold Char.ofNat
  rw [dif_pos (Or.inl h)]
  rfl

theorem char_roundtrip_byte (b : SCrypto.Byte) :
    (Char.ofNat b.val).toNat % 256 = b.val := by
  rw [char_toNat_ofNat (lt_trans b.isLt (by norm_num))]
  exact Nat.mod_eq_of_lt b.isLt

theorem toyB64_roundtrip (bs : List SCrypto.Byte) :
    SCrypto.toyB64d (SCrypto.toyB64e bs) = bs := by
  unfold SCrypto.toyB64e SCrypto.toyB64d
  rw [show (String.mk (bs.map fun b => Char.ofNat b.val)).data
      = bs.map (fun b => Char.ofNat b.val) from rfl]
  rw [List.map_map]
  have hpt : ∀ b ∈ bs,
      ((fun c => (⟨c.toNat % 256, Nat.mod_lt _ (by omega)⟩ : SCrypto.Byte)) ∘
        (fun b : SCrypto.Byte => Char.ofNat b.val)) b = b := by
    intro b _
    apply Fin.ext
    show (Char.ofNat b.val).toNat % 256 = b.val
    exact char_roundtrip_byte b
  rw [List.map_congr_left hpt]
  simp

/-- C5: when the stored payload's authentication fails — wrong
passphrase-derived key or tampered bytes, i.e. the AES-GCM decryption
returns no plaintext — `EncryptedStore.get` surfaces exactly the
`TamperOrWrongPassphrase` failure at that first get; no plaintext
(partial or otherwise) is ever produced. -/
theorem encrypted_store_get_fails_closed {Ct : Type}
    (aeadDec : Nat → Ct → Option SCrypto.JValue)
    (b64d : String → List SCrypto.Byte) (key : Nat)
    (store : SCrypto.EncStore Ct) (k : String) (payload : Ct)
    (hIn : store.kv.lookup k = some payload)
    (hDec : aeadDec key payload = none) :
    SCrypto.esGet aeadDec b64d key store k = .error .tamperOrWrongPassphrase := by
  have hdj : SCrypto.decryptJson aeadDec b64d key payload
      = .error .tamperOrWrongPassphrase := by
    unfold SCrypto.decryptJson
    rw [hDec]
  simp only [SCrypto.esGet, hIn, hdj]

/-- Witness for C5 at a concrete store whose payload fails authentication. -/
theorem encrypted_store_get_fails_closed_witness :
    SCrypto.esGet (fun (_ : Nat) (_ : Nat) => (none : Option SCrypto.JValue))
        SCrypto.toyB64d 0 ⟨[("k", 0)]⟩ "k" = .error .tamperOrWrongPassphrase :=
  encrypted_store_get_fails_closed (fun _ _ => none) SCrypto.toyB64d 0
    ⟨[("k", 0)]⟩ "k" 0 (by decide) rfl

/-- C6 (amended): for every JSON-like or binary value `v` in which no object
carries the serializer's reserved tag shape (a `__type` property equal to
`"ab"`), storing `v` with `set` and reading it back with `get` under the same
key and the same derived key recovers `v` exactly: binary leaves round-trip
through the tagged base64 serialization, given the AEAD and base64 codec
round-trip contracts of the external primitives. -/
theorem encrypted_store_roundtrip_tagged_binary {Ct : Type}
    (aeadEnc : Nat → Nat → SCrypto.JValue → Ct)
    (aeadDec : Nat → Ct → Option SCrypto.JValue)
    (b64e : List SCrypto.Byte → String) (b64d : String → List SCrypto.Byte)
    (key iv : Nat) (store : SCrypto.EncStore Ct) (k : String) (v : SCrypto.JValue)
    (hAead : ∀ key iv value, aeadDec key (aeadEnc key iv value) = some value)
    (hB64 : ∀ bs, b64d (b64e bs) = bs)
    (hv : SCrypto.noReservedTag v = true) :
    SCrypto.esGet aeadDec b64d key (SCrypto.esSet aeadEnc b64e key iv store k v) k
      = .ok (some v) := by
  have hdj : SCrypto.decryptJson aeadDec b64d key
      (SCrypto.encryptJson aeadEnc b64e key iv v) = .ok v := by
    unfold SCrypto.decryptJson SCrypto.encryptJson
    rw [hAead]
    simp only [decode_encode_val b64e b64d hB64 v hv]
  have hlk : (SCrypto.esSet aeadEnc b64e key iv store k v).kv.lookup k
      = some (SCrypto.encryptJson aeadEnc b64e key iv v) := by
    unfold SCrypto.esSet
    exact lookup_cons_eq _ _ _
  simp only [SCrypto.esGet, hlk, hdj]

/-- Witness for C6 (amended) with a binary payload and toy codecs satisfying
the round-trip contracts. -/
theorem encrypted_store_roundtrip_tagged_binary_witness :
    SCrypto.esGet (fun _ (p : SCrypto.JValue) => some p) SCrypto.toyB64d 0
        (SCrypto.esSet (fun _ _ (p : SCrypto.JValue) => p) SCrypto.toyB64e 0 0 ⟨[]⟩ "k"
          (.jbin [(65 : Fin 256)])) "k"
      = .ok (some (.jbin [(65 : Fin 256)])) :=
  encrypted_store_roundtrip_tagged_binary
    (fun _ _ (p : SCrypto.JValue) => p) (fun _ p => some p)
    SCrypto.toyB64e SCrypto.toyB64d 0 0 ⟨[]⟩ "k" (.jbin [(65 : Fin 256)])
    (fun _ _ _ => rfl) toyB64_roundtrip (by simp [SCrypto.noReservedTag])

/-- Counterexample for C6 as literally stated: a JSON-like value that itself
uses the reserved tag shape `{__type: "ab", data: ""}` is not recovered —
the reviver turns it back into an empty `Uint8Array`, so get returns a
different value than was stored. -/
theorem encrypted_store_roundtrip_reserved_tag_cx :
    SCrypto.esGet (fun _ (p : SCrypto.JValue) => some p) SCrypto.toyB64d 0
        (SCrypto.esSet (fun _ _ (p : SCrypto.JValue) => p) SCrypto.toyB64e 0 0 ⟨[]⟩ "k"
          (.jobj (.cons "__type" (.jstr "ab") (.cons "data" (.jstr "") .nil)))) "k"
      = .ok (some (.jbin []))
    ∧ (SCrypto.JValue.jbin [])
      ≠ .jobj (.cons "__type" (.jstr "ab") (.cons "data" (.jstr "") .nil)) := by
  constructor
  · have hdj : SCrypto.decryptJson (fun _ (p : SCrypto.JValue) => some p) SCrypto.toyB64d 0
        (SCrypto.encryptJson (fun _ _ (p : SCrypto.JValue) => p) SCrypto.toyB64e 0 0
          (.jobj (.cons "__type" (.jstr "ab") (.cons "data" (.jstr "") .nil))))
        = .ok (.jbin []) := by
      unfold SCrypto.decryptJson SCrypto.encryptJson
      simp [SCrypto.encodeValue, SCrypto.encodeObj, SCrypto.decodeValue,
        SCrypto.decodeObj, SCrypto.JObj.lookupField, SCrypto.toyB64d]
    have hlk : (SCrypto.esSet (fun _ _ (p : SCrypto.JValue) => p) SCrypto.toyB64e 0 0
        ⟨[]⟩ "k" (.jobj (.cons "__type" (.jstr "ab") (.cons "data" (.jstr "") .nil)))).kv.lookup "k"
        = some (SCrypto.encryptJson (fun _ _ (p : SCrypto.JValue) => p) SCrypto.toyB64e 0 0
            (.jobj (.cons "__type" (.jstr "ab") (.cons "data" (.jstr "") .nil)))) := by
      unfold SCrypto.esSet
      exact lookup_cons_eq _ _ _
    simp only [SCrypto.esGet, hlk, hdj]
  · intro h
    exact SCrypto.JValue.noConfusion h
